import Mathlib

/-!
Verification of the `osm` o5m decoder and polygon reconstruction engine.

The Go sources are shallowly embedded: byte streams are `List Nat` (each
element a byte value < 256), Go's `uint64`/`int64` arithmetic is `Nat`/`Int`
with explicit reductions modulo `2 ^ 64`, and fallible operations return
`Option`/`Except`.  Loops are encoded as fuel-bounded recursion where the
fuel is derived from a quantity the loop strictly decreases (the remaining
byte count or an explicit length budget), so the embedded functions are
total and executable.
-/

namespace Osm

/-- Go's reinterpretation of a `uint64` value as `int64` (two's complement),
as in the conversion `int64(n)`. -/
def u64ToI64 (n : Nat) : Int :=
  if n % 2 ^ 64 < 2 ^ 63 then (n % 2 ^ 64 : Int) else (n % 2 ^ 64 : Int) - 2 ^ 64

/-- Wrap-around of signed 64-bit arithmetic: the value Go stores after an
`int64` operation produced the mathematical integer `x`. -/
def wrapI64 (x : Int) : Int := (x + 2 ^ 63) % 2 ^ 64 - 2 ^ 63

/-- The final value produced by `readSigned` (parser.go:32-36): negative
magnitudes are incremented (uint64 wrap-around) before the sign is applied,
and the multiplication `sign * int64(n)` wraps. -/
def finishSigned (sign : Int) (n : Nat) : Int :=
  wrapI64 (sign * u64ToI64 (if sign < 0 then (n + 1) % 2 ^ 64 else n))

/-- Loop of `readSigned` (parser.go:10-39).  State: remaining bytes,
accumulator `n` (a uint64 value), current `shift`, `sign`, and the count of
read attempts.  Returns `(none, read)` on truncated input (Go counts the
failed read attempt), `(some value, read)` on success. -/
def readSignedLoop : List Nat → Nat → Nat → Int → Nat → Option Int × Nat
  | [], _, _, _, read => (none, read + 1)
  | b :: rest, n, shift, sign, read =>
    let v := b % 128
    let sign1 := if shift = 0 ∧ v % 2 = 1 then -1 else sign
    let n1 := if shift = 0 then n ||| (v / 2) else n ||| ((v * 2 ^ shift) % 2 ^ 64)
    let shift1 := if shift = 0 then 6 else shift + 7
    if b % 256 < 128 then
      (some (finishSigned sign1 n1), read + 1)
    else
      readSignedLoop rest n1 shift1 sign1 (read + 1)

/-- `readSigned` (parser.go:10): decode a signed varint from the front of a
byte stream.  Returns the decoded value (or `none` for truncated input) and
the number of bytes read. -/
def readSignedBytes (bytes : List Nat) : Option Int × Nat :=
  readSignedLoop bytes 0 0 1 0

/-- Loop of `readUnsigned` (parser.go:41-58). -/
def readUnsignedLoop : List Nat → Nat → Nat → Nat → Option Nat × Nat
  | [], _, _, read => (none, read + 1)
  | b :: rest, n, shift, read =>
    let v := b % 128
    let n1 := n ||| ((v * 2 ^ shift) % 2 ^ 64)
    if b % 256 < 128 then
      (some n1, read + 1)
    else
      readUnsignedLoop rest n1 (shift + 7) (read + 1)

/-- `readUnsigned` (parser.go:41): decode an unsigned varint. -/
def readUnsignedBytes (bytes : List Nat) : Option Nat × Nat :=
  readUnsignedLoop bytes 0 0 0

/-- Reference encoding of a magnitude into 7-bit little-endian groups with a
continuation bit, as described by the spec for the varint wire format. -/
def encode7 (m : Nat) : List Nat :=
  if m < 128 then [m] else (m % 128 + 128) :: encode7 (m / 128)
decreasing_by exact Nat.div_lt_self (by omega) (by omega)

/-- Reference signed-varint encoding from the spec: the first byte carries
the sign in bit 0 and the 6 low magnitude bits in bits 1-6; later bytes
carry 7 bits each; a negative value stores its magnitude minus one. -/
def encodeSigned (x : Int) : List Nat :=
  let mag : Nat := if x < 0 then (-(x + 1)).toNat else x.toNat
  let s : Nat := if x < 0 then 1 else 0
  let b0 := (mag % 64) * 2 + s
  if mag < 64 then [b0] else (b0 + 128) :: encode7 (mag / 64)

lemma lor_mul_two_pow_eq_add {n v s : Nat} (h : n < 2 ^ s) :
    n ||| (v * 2 ^ s) = n + v * 2 ^ s := by
  have h1 : 2 ^ s * v + n = 2 ^ s * v ||| n := Nat.mul_add_lt_is_or h v
  rw [Nat.lor_comm, Nat.mul_comm v (2 ^ s), ← h1]
  omega

lemma encode7_byte_lt {m : Nat} (_hm : 128 ≤ m) : ¬ (m % 128 + 128) % 256 < 128 := by
  have : m % 128 < 128 := Nat.mod_lt _ (by omega)
  omega

/-- After the first byte, `readSignedLoop` run on a 7-bit-group encoding of
`m` accumulates `n + m * 2 ^ shift` and finishes. -/
lemma readSignedLoop_encode7 (m : Nat) : ∀ n shift sign read,
    0 < shift → n < 2 ^ shift → n + m * 2 ^ shift < 2 ^ 64 →
    readSignedLoop (encode7 m) n shift sign read =
      (some (finishSigned sign (n + m * 2 ^ shift)), read + (encode7 m).length) := by
  induction m using Nat.strong_induction_on with
  | _ m ih =>
    intro n shift sign read hshift hn hlt
    rw [encode7]
    have hshift' : ¬ shift = 0 := by omega
    by_cases hm : m < 128
    · simp only [if_pos hm, readSignedLoop, List.length_singleton]
      have hv : m % 128 = m := Nat.mod_eq_of_lt hm
      simp only [hv]
      rw [if_pos (by omega : m % 256 < 128), if_neg hshift',
        if_neg (by simp [hshift'] : ¬ (shift = 0 ∧ m % 2 = 1))]
      have hsz : m * 2 ^ shift % 2 ^ 64 = m * 2 ^ shift := Nat.mod_eq_of_lt (by omega)
      rw [hsz, lor_mul_two_pow_eq_add hn]
    · simp only [if_neg hm, readSignedLoop, List.length_cons]
      have hm' : 128 ≤ m := by omega
      have hb : ¬ (m % 128 + 128) % 256 < 128 := encode7_byte_lt hm'
      have hv : (m % 128 + 128) % 128 = m % 128 := by omega
      simp only [hv]
      rw [if_neg hb, if_neg hshift', if_neg hshift',
        if_neg (by simp [hshift'] : ¬ (shift = 0 ∧ m % 128 % 2 = 1))]
      have hsz : m % 128 * 2 ^ shift % 2 ^ 64 = m % 128 * 2 ^ shift := by
        have h1 : m % 128 * 2 ^ shift ≤ m * 2 ^ shift :=
          Nat.mul_le_mul_right _ (Nat.mod_le m 128)
        exact Nat.mod_eq_of_lt (by omega)
      rw [hsz, lor_mul_two_pow_eq_add hn]
      have h2 : 2 ^ (shift + 7) = 2 ^ shift * 128 := by
        rw [Nat.pow_add]
      have h4 : m % 128 + 128 * (m / 128) = m := Nat.mod_add_div m 128
      have harg : n + m % 128 * 2 ^ shift + m / 128 * 2 ^ (shift + 7)
          = n + m * 2 ^ shift := by
        rw [h2]
        calc n + m % 128 * 2 ^ shift + m / 128 * (2 ^ shift * 128)
            = n + (m % 128 + 128 * (m / 128)) * 2 ^ shift := by ring
          _ = n + m * 2 ^ shift := by rw [h4]
      have hrec := ih (m / 128) (Nat.div_lt_self (by omega) (by omega))
        (n + m % 128 * 2 ^ shift) (shift + 7) sign (read + 1)
        (by omega)
        (by
          have h1 : m % 128 * 2 ^ shift ≤ 127 * 2 ^ shift :=
            Nat.mul_le_mul_right _ (by omega)
          omega)
        (by rw [harg]; exact hlt)
      rw [hrec, harg]
      have hlen : read + 1 + (encode7 (m / 128)).length
          = read + ((encode7 (m / 128)).length + 1) := by omega
      rw [hlen]

lemma wrapI64_eq_self {x : Int} (h1 : -(2 ^ 63) ≤ x) (h2 : x < 2 ^ 63) :
    wrapI64 x = x := by
  unfold wrapI64
  have h3 : (0 : Int) ≤ x + 2 ^ 63 := by omega
  have h4 : x + 2 ^ 63 < 2 ^ 64 := by omega
  rw [Int.emod_eq_of_lt h3 h4]
  omega

lemma u64ToI64_small {n : Nat} (h : n < 2 ^ 63) : u64ToI64 n = (n : Int) := by
  unfold u64ToI64
  rw [if_pos (by omega : n % 2 ^ 64 < 2 ^ 63)]
  omega

/-- C5: for every signed 64-bit integer `x`, decoding the reference
signed-varint encoding of `x` (first byte: bit 0 sign flag, bits 1-6 the low
magnitude bits; later bytes 7 bits each; negative values store magnitude
minus one) with `readSigned` yields exactly `x`: decode(encode(x)) = x. -/
theorem readSigned_encodeSigned (x : Int) (h1 : -(2 ^ 63) ≤ x) (h2 : x < 2 ^ 63) :
    (readSignedBytes (encodeSigned x)).1 = some x := by
  unfold readSignedBytes encodeSigned
  by_cases hneg : x < 0
  · -- negative case: magnitude is -(x+1), sign bit set
    set mag : Nat := (-(x + 1)).toNat with hmag
    have hmagval : (mag : Int) = -(x + 1) := by
      rw [hmag]; exact Int.toNat_of_nonneg (by omega)
    have hmaglt : mag < 2 ^ 63 := by
      have : (mag : Int) < 2 ^ 63 := by omega
      exact_mod_cast this
    have hfin : finishSigned (-1) mag = x := by
      unfold finishSigned
      rw [if_pos (by norm_num)]
      rw [Nat.mod_eq_of_lt (by omega : mag + 1 < 2 ^ 64)]
      by_cases htop : mag + 1 = 2 ^ 63
      · rw [htop]
        unfold u64ToI64
        rw [Nat.mod_eq_of_lt (by norm_num)]
        rw [if_neg (by norm_num)]
        have hx : x = -(2 ^ 63) := by omega
        rw [hx]
        unfold wrapI64
        norm_num
      · rw [u64ToI64_small (by omega)]
        have hval : (-1 : Int) * (mag + 1 : Nat) = x := by push_cast; omega
        rw [hval, wrapI64_eq_self h1 h2]
    simp only [if_pos hneg]
    by_cases hsmall : mag < 64
    · rw [if_pos hsmall]
      have hb0 : mag % 64 = mag := Nat.mod_eq_of_lt hsmall
      simp only [readSignedLoop, hb0]
      have hv : (mag * 2 + 1) % 128 = mag * 2 + 1 := Nat.mod_eq_of_lt (by omega)
      simp only [hv, if_true, true_and]
      rw [if_pos (by omega : (mag * 2 + 1) % 256 < 128),
        if_pos (by omega : (mag * 2 + 1) % 2 = 1)]
      rw [(by omega : (mag * 2 + 1) / 2 = mag), Nat.zero_or, hfin]
    · rw [if_neg hsmall]
      have hm64 : mag % 64 < 64 := Nat.mod_lt _ (by omega)
      simp only [readSignedLoop]
      have hv : (mag % 64 * 2 + 1 + 128) % 128 = mag % 64 * 2 + 1 := by omega
      simp only [hv, if_true, true_and]
      rw [if_neg (by omega : ¬ (mag % 64 * 2 + 1 + 128) % 256 < 128),
        if_pos (by omega : (mag % 64 * 2 + 1) % 2 = 1)]
      rw [(by omega : (mag % 64 * 2 + 1) / 2 = mag % 64), Nat.zero_or]
      have h4 : mag % 64 + mag / 64 * 2 ^ 6 = mag := by
        have := Nat.mod_add_div mag 64
        simpa [Nat.mul_comm] using this
      rw [readSignedLoop_encode7 (mag / 64) (mag % 64) 6 (-1) (0 + 1) (by omega)
        (by simpa using hm64) (by rw [h4]; omega)]
      rw [h4, hfin]
  · -- nonnegative case
    have hge : 0 ≤ x := by omega
    set mag : Nat := x.toNat with hmag
    have hmagval : (mag : Int) = x := by rw [hmag]; exact Int.toNat_of_nonneg hge
    have hmaglt : mag < 2 ^ 63 := by
      have : (mag : Int) < 2 ^ 63 := by omega
      exact_mod_cast this
    have hfin : finishSigned 1 mag = x := by
      unfold finishSigned
      rw [if_neg (by norm_num)]
      rw [u64ToI64_small hmaglt, one_mul, ← hmagval]
      exact wrapI64_eq_self (by omega) (by exact_mod_cast hmaglt)
    simp only [if_neg hneg]
    by_cases hsmall : mag < 64
    · rw [if_pos hsmall]
      have hb0 : mag % 64 = mag := Nat.mod_eq_of_lt hsmall
      simp only [readSignedLoop, hb0]
      have hv : (mag * 2 + 0) % 128 = mag * 2 := Nat.mod_eq_of_lt (by omega)
      simp only [hv, if_true, true_and]
      rw [if_pos (by omega : (mag * 2 + 0) % 256 < 128),
        if_neg (by omega : ¬ (mag * 2) % 2 = 1)]
      rw [(by omega : mag * 2 / 2 = mag), Nat.zero_or, hfin]
    · rw [if_neg hsmall]
      have hm64 : mag % 64 < 64 := Nat.mod_lt _ (by omega)
      simp only [readSignedLoop]
      have hv : (mag % 64 * 2 + 0 + 128) % 128 = mag % 64 * 2 := by omega
      simp only [hv, if_true, true_and]
      rw [if_neg (by omega : ¬ (mag % 64 * 2 + 0 + 128) % 256 < 128),
        if_neg (by omega : ¬ (mag % 64 * 2) % 2 = 1)]
      rw [(by omega : mag % 64 * 2 / 2 = mag % 64), Nat.zero_or]
      have h4 : mag % 64 + mag / 64 * 2 ^ 6 = mag := by
        have := Nat.mod_add_div mag 64
        simpa [Nat.mul_comm] using this
      rw [readSignedLoop_encode7 (mag / 64) (mag % 64) 6 1 (0 + 1) (by omega)
        (by simpa using hm64) (by rw [h4]; omega)]
      rw [h4, hfin]

/-- Witness for C5: the round trip evaluated at the extreme value `-2^63`
(where the uint64 increment and the signed multiplication both wrap). -/
theorem readSigned_encodeSigned_witness :
    (readSignedBytes (encodeSigned (-(2 ^ 63)))).1 = some (-(2 ^ 63)) :=
  readSigned_encodeSigned (-(2 ^ 63)) (by norm_num) (by norm_num)

/-! ## String back-reference table (parser.go:60-99) -/

/-- Errors surfaced by the embedded code; one constructor per distinct
error construction site in the Go sources (Go errors are formatted strings,
distinguishable values just like these constructors). -/
inductive GoErr
  | eofErr                                     -- io.EOF from the byte source
  | outOfBounds (n : Int)                      -- parser.go:91  "out of bounds"
  | headerByte                                 -- parser.go:231
  | headerSection                              -- parser.go:235
  | headerSectionLength                        -- parser.go:239
  | headerType                                 -- parser.go:247
  | tagParse (inner : GoErr)                   -- parser.go:318 "could not parse tag"
  | overread                                   -- parser.go:327/375/433 "overread"
  | nodeIdParse (inner : GoErr)                -- parser.go:368
  | invalidRefString (s : List Nat)            -- parser.go:406
  | refParse (inner : GoErr)                   -- parser.go:409
  | invalidRefType (s : List Nat)              -- parser.go:421
  | datasetHeader (inner : GoErr)              -- parser.go:503
  | unsupportedDataset (kind : Nat)            -- parser.go:550
  | sectionLengthMismatch (declared actual : Int) -- parser.go:555
  | fuelExhausted                              -- embedding artifact, unreachable on real runs
  | cannotCloseRing (id : Int)                 -- geom.go makeRings "cannot close ring"
  | contractViolation (msg : String)           -- Go panic sites
  | cycleDetected                              -- polygons.go makeInclusionTree
  | geosErr                                    -- external geometry engine failure
  | unsupportedLocationType                    -- centroid.go:20
  | invalidEmptyPolygon                        -- centroid.go:185
  | noConvexVertex                             -- centroid.go:105
deriving Repr, DecidableEq

/-- `stringPair` (parser.go:60); Go strings are byte strings, embedded as
`List Nat`. -/
structure StringPair where
  key : List Nat
  value : List Nat
deriving Repr, DecidableEq

def emptyPair : StringPair := ⟨[], []⟩

/-- `stringsTable` (parser.go:65): circular buffer of string pairs plus the
next insertion slot.  Go's slice is embedded as a `List`. -/
structure StringsTable where
  entries : List StringPair
  latest : Nat
deriving Repr, DecidableEq

/-- `NewStringsTable` (parser.go:70): 15000 empty slots. -/
def NewStringsTable : StringsTable :=
  { entries := List.replicate 15000 emptyPair, latest := 0 }

/-- `stringsTable.Push` (parser.go:77): drop pairs whose combined byte
length exceeds 250, otherwise overwrite slot `latest` and advance it modulo
the table length. -/
def StringsTable.Push (st : StringsTable) (k v : List Nat) : StringsTable :=
  if k.length + v.length > 250 then st
  else { entries := st.entries.set st.latest ⟨k, v⟩,
         latest := (st.latest + 1) % st.entries.length }

/-- `stringsTable.Get` (parser.go:89): Go's parameter is a (signed) `int`. -/
def StringsTable.Get (st : StringsTable) (n : Int) :
    Except GoErr (List Nat × List Nat) :=
  if n < 0 ∨ n > (st.entries.length : Int) then .error (.outOfBounds n)
  else
    let m := st.latest - n
    let m' := if m < 0 then (st.entries.length : Int) + m else m
    let p := st.entries.getD m'.toNat emptyPair
    .ok (p.key, p.value)

/-- Pushing a list of pairs in order, oldest first. -/
def pushAll (st : StringsTable) (L : List (List Nat × List Nat)) : StringsTable :=
  L.foldl (fun t p => t.Push p.1 p.2) st

/-- C2 counterexample: `Get 0` is not an error.  On a fresh table with one
pair pushed, `Get 0` returns the (empty) slot at the insertion cursor
rather than rejecting distance 0 as out of range. -/
theorem stringsTable_get_zero_not_error :
    (NewStringsTable.Push [65] [66]).Get 0 = .ok ([], []) := by
  have h1 : NewStringsTable.Push [65] [66] =
      { entries := (List.replicate 15000 emptyPair).set 0 ⟨[65], [66]⟩,
        latest := 1 } := by
    unfold NewStringsTable StringsTable.Push
    rw [if_neg (by norm_num)]
    dsimp only
    rw [List.length_replicate]
  rw [h1]
  unfold StringsTable.Get
  rw [if_neg (by
    rw [List.length_set, List.length_replicate]
    norm_num)]
  dsimp only
  rw [List.length_set, List.length_replicate]
  have h4 : ((1 : Nat) - 0 : Int).toNat = 1 := by norm_num
  rw [if_neg (by norm_num : ¬ (((1 : Nat) : Int) - 0 < 0)), h4]
  rw [List.getD_eq_getElem?_getD,
    List.getElem?_set_ne (by omega : (0 : Nat) ≠ 1),
    List.getElem?_replicate_of_lt (by omega : (1 : Nat) < 15000)]
  rfl

/-- State of the table after pushing `L` (all kept, at most capacity many)
onto a fresh table: slots `0 ≤ i < L.length` hold `L` in order, and the
cursor sits at `L.length % 15000`. -/
lemma pushAll_invariant (L : List (List Nat × List Nat))
    (hok : ∀ p ∈ L, p.1.length + p.2.length ≤ 250) (hlen : L.length ≤ 15000) :
    (pushAll NewStringsTable L).entries.length = 15000 ∧
    (pushAll NewStringsTable L).latest = L.length % 15000 ∧
    ∀ i, i < L.length →
      (pushAll NewStringsTable L).entries.getD i emptyPair
        = ⟨(L.getD i ([], [])).1, (L.getD i ([], [])).2⟩ := by
  induction L using List.reverseRecOn with
  | nil =>
    refine ⟨List.length_replicate _ _, rfl, ?_⟩
    intro i hi
    simp at hi
  | append_singleton L p ih =>
    have hlen' : L.length < 15000 := by
      have h5 : L.length + 1 ≤ 15000 := by simpa using hlen
      omega
    obtain ⟨ih1, ih2, ih3⟩ := ih
      (fun q hq => hok q (List.mem_append_left _ hq)) (by omega)
    have hfold : pushAll NewStringsTable (L ++ [p])
        = (pushAll NewStringsTable L).Push p.1 p.2 := by
      unfold pushAll
      rw [List.foldl_append]
      rfl
    have hkept : ¬ p.1.length + p.2.length > 250 := by
      have := hok p (List.mem_append_right _ (List.mem_singleton_self p))
      omega
    have hlatest : (pushAll NewStringsTable L).latest = L.length :=
      ih2.trans (Nat.mod_eq_of_lt hlen')
    rw [hfold]
    unfold StringsTable.Push
    rw [if_neg hkept]
    dsimp only
    rw [List.length_set, ih1, hlatest]
    refine ⟨rfl, ?_, ?_⟩
    · rw [List.length_append]
      rfl
    · intro i hi
      rw [List.length_append] at hi
      simp only [List.length_singleton] at hi
      rw [List.getD_eq_getElem?_getD]
      by_cases hiL : i < L.length
      · rw [List.getElem?_set_ne (by omega : L.length ≠ i)]
        rw [← List.getD_eq_getElem?_getD, ih3 i hiL]
        rw [List.getD_eq_getElem?_getD, List.getD_eq_getElem?_getD,
          List.getElem?_append_left hiL]
      · have hieq : i = L.length := by omega
        subst hieq
        rw [List.getElem?_set_self (by omega), List.getD_eq_getElem?_getD,
          List.getElem?_concat_length]
        rfl

/-- C2 (amended): `Get d` returns the out-of-range error iff `d` is
negative or exceeds the table capacity 15000 (`d = 0` is accepted and reads
the slot at the insertion cursor), and for `1 ≤ d ≤` number of (kept)
insertions, `Get d` returns the `d`-th most recently inserted pair. -/
theorem stringsTable_get_spec :
    (∀ st : StringsTable, st.entries.length = 15000 → ∀ d : Int,
        ((∃ e, st.Get d = .error e) ↔ (d < 0 ∨ 15000 < d))) ∧
    (∀ L : List (List Nat × List Nat),
        (∀ p ∈ L, p.1.length + p.2.length ≤ 250) → L.length ≤ 15000 →
        ∀ d : Nat, 1 ≤ d → d ≤ L.length →
        (pushAll NewStringsTable L).Get d
          = .ok (L.getD (L.length - d) ([], []))) := by
  constructor
  · intro st hsize d
    unfold StringsTable.Get
    rw [hsize]
    by_cases h : d < 0 ∨ d > (15000 : Int)
    · rw [if_pos (by exact_mod_cast h)]
      exact ⟨fun _ => by exact_mod_cast h, fun _ => ⟨.outOfBounds d, rfl⟩⟩
    · rw [if_neg (by exact_mod_cast h)]
      constructor
      · rintro ⟨e, he⟩
        simp at he
      · intro hc
        exact absurd (by exact_mod_cast hc) h
  · intro L hok hlen d hd1 hd2
    obtain ⟨h1, h2, h3⟩ := pushAll_invariant L hok hlen
    unfold StringsTable.Get
    rw [h1, h2]
    rw [if_neg (by
      push_neg
      constructor
      · omega
      · have : (d : Int) ≤ (L.length : Int) := by exact_mod_cast hd2
        omega)]
    dsimp only
    by_cases hfull : L.length < 15000
    · have hmod : L.length % 15000 = L.length := Nat.mod_eq_of_lt hfull
      rw [hmod]
      rw [if_neg (by
        push_neg
        have : (d : Int) ≤ (L.length : Int) := by exact_mod_cast hd2
        omega)]
      have htn : ((L.length : Int) - d).toNat = L.length - d := by omega
      rw [htn, h3 (L.length - d) (by omega)]
    · have hfull' : L.length = 15000 := by omega
      have hmod : L.length % 15000 = 0 := by rw [hfull']
      rw [hmod]
      rw [if_pos (by
        have : (1 : Int) ≤ (d : Int) := by exact_mod_cast hd1
        omega)]
      have hdle : (d : Int) ≤ (L.length : Int) := by exact_mod_cast hd2
      have htn : (((15000 : Nat) : Int) + (((0 : Nat) : Int) - (d : Int))).toNat
          = L.length - d := by
        push_cast
        omega
      rw [htn, h3 (L.length - d) (by omega)]

/-- Witness for C2 (amended): the error characterization applied at
distance 16000 on a size-15000 table, and retrieval of the most recent pair
after two pushes. -/
theorem stringsTable_get_spec_witness :
    ((∃ e, (NewStringsTable.Push [65] [66]).Get 16000 = .error e)
        ↔ ((16000 : Int) < 0 ∨ (15000 : Int) < 16000)) ∧
    (pushAll NewStringsTable [([65], [66]), ([67], [68])]).Get 1
        = .ok ([67], [68]) := by
  constructor
  · exact stringsTable_get_spec.1 (NewStringsTable.Push [65] [66])
      (by
        unfold NewStringsTable StringsTable.Push
        rw [if_neg (by norm_num)]
        dsimp only
        rw [List.length_set, List.length_replicate]) 16000
  · have h := stringsTable_get_spec.2 [([65], [66]), ([67], [68])]
      (by
        intro p hp
        simp at hp
        rcases hp with h | h <;> (subst h; norm_num))
      (by norm_num) 1 (by norm_num) (by norm_num)
    simpa using h

/-! ## Base reader (parser.go:101-226) -/

/-- `baseReader` (parser.go:101).  The underlying `bufio.Reader` over a
finite stream is embedded as the whole byte list plus the read position;
`read` is Go's byte counter (it stays equal to `pos` until an error occurs;
Go counts some failed read attempts). -/
structure BaseReader where
  stream : List Nat
  pos : Nat
  strings : StringsTable
  read : Nat
  err : Option GoErr
deriving Repr, DecidableEq

/-- The bytes still unread. -/
def BaseReader.rest (r : BaseReader) : List Nat := r.stream.drop r.pos

/-- `NewBaseReader` (parser.go:108). -/
def NewBaseReader (stream : List Nat) : BaseReader :=
  { stream := stream, pos := 0, strings := NewStringsTable, read := 0, err := none }

/-- `baseReader.Reset` (parser.go:115): fresh string table, nothing else. -/
def BaseReader.Reset (r : BaseReader) : BaseReader :=
  { r with strings := NewStringsTable }

/-- `baseReader.ReadByte` (parser.go:123).  Go increments `read` even when
the underlying read fails. -/
def BaseReader.ReadByte (r : BaseReader) : Nat × BaseReader :=
  match r.err with
  | some _ => (0, r)
  | none =>
    match r.stream.drop r.pos with
    | [] => (0, { r with err := some .eofErr, read := r.read + 1 })
    | b :: _ => (b, { r with pos := r.pos + 1, read := r.read + 1 })

/-- `baseReader.ReadSigned` (parser.go:143): `read` grows by the reported
attempt count; on truncation the position is at the stream end. -/
def BaseReader.ReadSigned (r : BaseReader) : Int × BaseReader :=
  match r.err with
  | some _ => (0, r)
  | none =>
    match readSignedBytes (r.stream.drop r.pos) with
    | (none, cnt) =>
      (0, { r with err := some .eofErr, read := r.read + cnt, pos := r.stream.length })
    | (some v, cnt) =>
      (v, { r with read := r.read + cnt, pos := r.pos + cnt })

/-- `baseReader.ReadUnsigned` (parser.go:153). -/
def BaseReader.ReadUnsigned (r : BaseReader) : Nat × BaseReader :=
  match r.err with
  | some _ => (0, r)
  | none =>
    match readUnsignedBytes (r.stream.drop r.pos) with
    | (none, cnt) =>
      (0, { r with err := some .eofErr, read := r.read + cnt, pos := r.stream.length })
    | (some v, cnt) =>
      (v, { r with read := r.read + cnt, pos := r.pos + cnt })

/-- `baseReader.Read` into an `n`-byte buffer (parser.go:133, io.ReadFull). -/
def BaseReader.ReadN (r : BaseReader) (n : Nat) : List Nat × BaseReader :=
  match r.err with
  | some _ => ([], r)
  | none =>
    let taken := (r.stream.drop r.pos).take n
    if taken.length < n then
      (taken, { r with err := some .eofErr, read := r.read + taken.length,
                       pos := r.stream.length })
    else
      (taken, { r with read := r.read + n, pos := r.pos + n })

/-- `bufio.ReadSlice(0)`: the bytes strictly before the first 0 byte, or
`none` if the stream ends before a 0 byte is found. -/
def readSlice0 : List Nat → Option (List Nat)
  | [] => none
  | 0 :: _ => some []
  | b :: rs => (readSlice0 rs).map (b :: ·)

/-- `baseReader.readStrings` (parser.go:172).  A leading 0 byte introduces
one (`single`) or two zero-terminated literal byte strings, pushed into the
table; any other first byte is unread and re-parsed as an unsigned varint
back-reference resolved through the table. -/
def BaseReader.readStrings1 (r : BaseReader) (single : Bool) :
    (List Nat × List Nat) × BaseReader :=
  match r.err with
  | some _ => (([], []), r)
  | none =>
    match r.stream.drop r.pos with
    | [] => (([], []), { r with err := some .eofErr })
    | b :: _ =>
      if b = 0 then
        let r1 : BaseReader := { r with pos := r.pos + 1, read := r.read + 1 }
        match readSlice0 (r1.stream.drop r1.pos) with
        | none => (([], []), { r1 with err := some .eofErr })
        | some k =>
          let r2 : BaseReader := { r1 with pos := r1.pos + (k.length + 1),
                                           read := r1.read + (k.length + 1) }
          if single then
            ((k, []), { r2 with strings := r2.strings.Push k [] })
          else
            match readSlice0 (r2.stream.drop r2.pos) with
            | none => ((k, []), { r2 with err := some .eofErr })
            | some v =>
              let r3 : BaseReader := { r2 with pos := r2.pos + (v.length + 1),
                                               read := r2.read + (v.length + 1) }
              ((k, v), { r3 with strings := r3.strings.Push k v })
      else
        let (idx, r1) := r.ReadUnsigned
        match r1.err with
        | some _ => (([], []), r1)
        | none =>
          match r1.strings.Get (u64ToI64 idx) with
          | .error e => (([], []), { r1 with err := some e })
          | .ok (k, v) => ((k, v), r1)

/-- `baseReader.ReadStrings` (parser.go:168). -/
def BaseReader.ReadStrings (r : BaseReader) : (List Nat × List Nat) × BaseReader :=
  r.readStrings1 false

/-- `baseReader.ReadString` (parser.go:163). -/
def BaseReader.ReadString (r : BaseReader) : List Nat × BaseReader :=
  let ((k, _), r1) := r.readStrings1 true
  (k, r1)

/-! ## Metadata (parser.go:280-311) -/

/-- `Metadata` (parser.go:280).  Go `int` is 64-bit here. -/
structure Metadata where
  version : Int
  timestamp : Int
  changeset : Int
  uid : List Nat
  author : List Nat
deriving Repr, DecidableEq

/-- The Go zero value `Metadata{}`. -/
def emptyMetadata : Metadata := ⟨0, 0, 0, [], []⟩

/-- `parseMeta` (parser.go:296): a zero version delta resets the metadata;
otherwise the version is the literal value, the timestamp is advanced by a
signed delta, and only when the resulting timestamp is non-zero are the
changeset delta and the (uid, author) string pair read. -/
def parseMeta (r : BaseReader) (prev : Metadata) : Metadata × BaseReader :=
  let (versionDelta, r1) := r.ReadUnsigned
  if versionDelta > 0 then
    let (td, r2) := r1.ReadSigned
    let ts := wrapI64 (prev.timestamp + td)
    let m1 : Metadata := { prev with version := u64ToI64 versionDelta, timestamp := ts }
    if m1.timestamp ≠ 0 then
      let (cd, r3) := r2.ReadSigned
      let ((uid, author), r4) := r3.ReadStrings
      let cs := wrapI64 (m1.changeset + cd)
      ({ m1 with changeset := cs, uid := uid, author := author }, r4)
    else
      (m1, r2)
  else
    (emptyMetadata, r1)

/-- C3: for every metadata block decoded against a running `Metadata`
state: a version delta of 0 resets version, timestamp, changeset, uid and
author to their zero defaults; a non-zero delta sets version to the literal
value and adds the signed delta to the running timestamp, and exactly when
the resulting timestamp is non-zero also adds a signed delta to the running
changeset and reads a (uid, author) string pair, while a zero resulting
timestamp leaves changeset, uid and author unchanged. -/
theorem parseMeta_spec (r : BaseReader) (prev : Metadata) :
    (∀ r1, r.ReadUnsigned = (0, r1) → parseMeta r prev = (emptyMetadata, r1)) ∧
    (∀ vd r1 td r2, r.ReadUnsigned = (vd, r1) → 0 < vd →
      r1.ReadSigned = (td, r2) →
      (wrapI64 (prev.timestamp + td) = 0 →
        parseMeta r prev
          = ({ prev with version := u64ToI64 vd, timestamp := 0 }, r2)) ∧
      (wrapI64 (prev.timestamp + td) ≠ 0 →
        ∀ cd r3 kv r4, r2.ReadSigned = (cd, r3) → r3.ReadStrings = (kv, r4) →
          parseMeta r prev
            = (⟨u64ToI64 vd, wrapI64 (prev.timestamp + td),
                wrapI64 (prev.changeset + cd), kv.1, kv.2⟩, r4))) := by
  constructor
  · intro r1 h
    unfold parseMeta
    rw [h]
    rfl
  · intro vd r1 td r2 hu hpos hs
    constructor
    · intro hts
      unfold parseMeta
      rw [hu]
      dsimp only
      rw [if_pos hpos, hs]
      dsimp only
      rw [if_neg (by simp [hts]), hts]
    · intro hts cd r3 kv r4 hc hstr
      unfold parseMeta
      rw [hu]
      dsimp only
      rw [if_pos hpos, hs]
      dsimp only
      rw [if_pos hts, hc]
      dsimp only
      rw [hstr]

/-- Witness for C3 (zero version delta arm) at a one-byte stream `[0]` with
an arbitrary concrete running metadata. -/
theorem parseMeta_spec_witness :
    parseMeta { stream := [0], pos := 0, strings := ⟨[], 0⟩, read := 0, err := none }
        ⟨5, 7, 9, [1], [2]⟩
      = (emptyMetadata,
         { stream := [0], pos := 1, strings := ⟨[], 0⟩, read := 1, err := none }) :=
  (parseMeta_spec _ _).1 _ (by rfl)

/-! ## Record payload parsers (parser.go:252-451).
`StringPair` doubles as Go's tag pair type (parser.go:269), which is
field-for-field identical to the table's `stringPair`. -/

/-- Loop of `parseTags` (parser.go:313-330).  Each real iteration consumes
at least one byte, so `length.toNat` fuel covers every terminating run; the
fuel-exhaustion branch is unreachable on such runs. -/
def parseTagsLoop (fuel : Nat) (length : Int) (tags : List StringPair) (r : BaseReader) :
    Except GoErr (List StringPair) × BaseReader :=
  if length > 0 then
    match fuel with
    | 0 => (.error .fuelExhausted, r)
    | fuel' + 1 =>
      let start := r.read
      let ((k, v), r1) := r.ReadStrings
      match r1.err with
      | some e => (.error (.tagParse e), r1)
      | none =>
        parseTagsLoop fuel' (length - ((r1.read : Int) - (start : Int))) (tags ++ [⟨k, v⟩]) r1
  else if length < 0 then (.error .overread, r)
  else (.ok tags, r)

/-- `parseTags` (parser.go:313). -/
def parseTags (r : BaseReader) (length : Int) (tags : List StringPair) :
    Except GoErr (List StringPair) × BaseReader :=
  parseTagsLoop length.toNat length tags r

/-- `Node` (parser.go:288). -/
structure Node where
  id : Int
  meta : Metadata
  lon : Int
  lat : Int
  tags : List StringPair
deriving Repr, DecidableEq

/-- Go zero value `Node{}`. -/
def emptyNode : Node := ⟨0, emptyMetadata, 0, 0, []⟩

/-- `parseNode` (parser.go:332): returns the updated running node (Go
mutates `prev` in place, including on error paths), the reader, and the
returned error if any. -/
def parseNode (r : BaseReader) (length : Int) (prev : Node) :
    Node × BaseReader × Option GoErr :=
  let offset := r.read
  let (idd, r1) := r.ReadSigned
  let id := wrapI64 (prev.id + idd)
  let (meta, r2) := parseMeta r1 prev.meta
  let (lond, r3) := r2.ReadSigned
  let (latd, r4) := r3.ReadSigned
  let lon := wrapI64 (prev.lon + lond)
  let lat := wrapI64 (prev.lat + latd)
  let remaining := length - ((r4.read : Int) - (offset : Int))
  match parseTags r4 remaining [] with
  | (.error e, r5) => (⟨id, meta, lon, lat, []⟩, r5, some e)
  | (.ok tags, r5) => (⟨id, meta, lon, lat, tags⟩, r5, r5.err)

/-- `Way` (parser.go:349). -/
structure Way where
  id : Int
  meta : Metadata
  nodes : List Int
  tags : List StringPair
deriving Repr, DecidableEq

/-- Go zero value `Way{}`. -/
def emptyWay : Way := ⟨0, emptyMetadata, [], []⟩

/-- Node-reference loop of `parseWay` (parser.go:363-376). -/
def parseWayNodesLoop (fuel : Nat) (nodesLength : Int) (nodes : List Int)
    (nodeId : Int) (r : BaseReader) : List Int × Int × BaseReader × Option GoErr :=
  if nodesLength > 0 then
    match fuel with
    | 0 => (nodes, nodeId, r, some .fuelExhausted)
    | fuel' + 1 =>
      let start := r.read
      let (dId, r1) := r.ReadSigned
      match r1.err with
      | some e => (nodes, nodeId, r1, some (.nodeIdParse e))
      | none =>
        let nid := wrapI64 (nodeId + dId)
        parseWayNodesLoop fuel' (nodesLength - ((r1.read : Int) - (start : Int)))
          (nodes ++ [nid]) nid r1
  else if nodesLength < 0 then (nodes, nodeId, r, some .overread)
  else (nodes, nodeId, r, none)

/-- `parseWay` (parser.go:356): returns the updated running way, the new
shared node-id counter (Go returns 0 on error), the reader and the error. -/
def parseWay (r : BaseReader) (length : Int) (prev : Way) (nodeId : Int) :
    Way × Int × BaseReader × Option GoErr :=
  let offset := r.read
  let (idd, r1) := r.ReadSigned
  let id := wrapI64 (prev.id + idd)
  let (meta, r2) := parseMeta r1 prev.meta
  let (nl, r3) := r2.ReadUnsigned
  let nodesLength := u64ToI64 nl
  match parseWayNodesLoop nodesLength.toNat nodesLength [] nodeId r3 with
  | (nodes, _, r4, some e) => (⟨id, meta, nodes, []⟩, 0, r4, some e)
  | (nodes, nodeId', r4, none) =>
    let remaining := length - ((r4.read : Int) - (offset : Int))
    match parseTags r4 remaining [] with
    | (.error e, r5) => (⟨id, meta, nodes, []⟩, 0, r5, some e)
    | (.ok tags, r5) => (⟨id, meta, nodes, tags⟩, nodeId', r5, r5.err)

/-- `Ref` (parser.go:274). -/
structure Ref where
  id : Int
  typ : Int
  role : List Nat
deriving Repr, DecidableEq

/-- `Relation` (parser.go:387). -/
structure Relation where
  id : Int
  meta : Metadata
  refs : List Ref
  tags : List StringPair
deriving Repr, DecidableEq

/-- Go zero value `Relation{}`. -/
def emptyRelation : Relation := ⟨0, emptyMetadata, [], []⟩

/-- Reference loop of `parseRelation` (parser.go:400-431).  The reference
type character is the first byte of the back-ref-or-literal string:
`'0'` = 48, `'1'` = 49, `'2'` = 50; the rest of the string is the role. -/
def parseRelRefsLoop (fuel : Nat) (refLength : Int) (refs : List Ref)
    (refIds : List Int) (r : BaseReader) :
    List Ref × List Int × BaseReader × Option GoErr :=
  if refLength > 0 then
    match fuel with
    | 0 => (refs, refIds, r, some .fuelExhausted)
    | fuel' + 1 =>
      let start := r.read
      let (dId, r1) := r.ReadSigned
      let (s, r2) := r1.ReadString
      if s.length < 1 then (refs, refIds, r2, some (.invalidRefString s))
      else
        match r2.err with
        | some e => (refs, refIds, r2, some (.refParse e))
        | none =>
          let c := s.headD 0
          let typ : Int := if c = 48 then 0 else if c = 49 then 1 else if c = 50 then 2 else -1
          if typ < 0 then (refs, refIds, r2, some (.invalidRefType s))
          else
            let t := typ.toNat
            let newId := wrapI64 (refIds.getD t 0 + dId)
            let refIds' := refIds.set t newId
            parseRelRefsLoop fuel' (refLength - ((r2.read : Int) - (start : Int)))
              (refs ++ [⟨newId, typ, s.drop 1⟩]) refIds' r2
  else if refLength < 0 then (refs, refIds, r, some .overread)
  else (refs, refIds, r, none)

/-- `parseRelation` (parser.go:394): the per-type reference counters
`refIds` are shared state, mutated in place even on error paths. -/
def parseRelation (r : BaseReader) (length : Int) (prev : Relation)
    (refIds : List Int) : Relation × List Int × BaseReader × Option GoErr :=
  let offset := r.read
  let (idd, r1) := r.ReadSigned
  let id := wrapI64 (prev.id + idd)
  let (meta, r2) := parseMeta r1 prev.meta
  let (rl, r3) := r2.ReadUnsigned
  let refLength := u64ToI64 rl
  match parseRelRefsLoop refLength.toNat refLength [] refIds r3 with
  | (refs, refIds', r4, some e) => (⟨id, meta, refs, []⟩, refIds', r4, some e)
  | (refs, refIds', r4, none) =>
    let remaining := length - ((r4.read : Int) - (offset : Int))
    match parseTags r4 remaining [] with
    | (.error e, r5) => (⟨id, meta, refs, []⟩, refIds', r5, some e)
    | (.ok tags, r5) => (⟨id, meta, refs, tags⟩, refIds', r5, r5.err)

/-- `BoundingBox` (parser.go:252): the four signed values as read; Go
divides each by 1e7 into a float64 for presentation only. -/
structure BoundingBox where
  x1 : Int
  y1 : Int
  x2 : Int
  y2 : Int
deriving Repr, DecidableEq

/-- `parseBoundingBox` (parser.go:256): four signed varints, no deltas. -/
def parseBoundingBox (r : BaseReader) : BoundingBox × BaseReader × Option GoErr :=
  let (a, r1) := r.ReadSigned
  let (b, r2) := r1.ReadSigned
  let (c, r3) := r2.ReadSigned
  let (d, r4) := r3.ReadSigned
  (⟨a, b, c, d⟩, r4, r4.err)

/-- `parseHeader` (parser.go:228): bytes 0xff, 0xe0, length 4, magic
"o5m2" = [111, 53, 109, 50]. -/
def parseHeader (r : BaseReader) : Option GoErr × BaseReader :=
  let (h, r1) := r.ReadByte
  if r1.err ≠ none ∨ h ≠ 255 then (some .headerByte, r1)
  else
    let (kind, r2) := r1.ReadByte
    if r2.err ≠ none ∨ kind ≠ 224 then (some .headerSection, r2)
    else
      let (l, r3) := r2.ReadUnsigned
      if l ≠ 4 then (some .headerSectionLength, r3)
      else
        let (buf, r4) := r3.ReadN 4
        match r4.err with
        | some e => (some e, r4)
        | none => if buf ≠ [111, 53, 109, 50] then (some .headerType, r4) else (none, r4)

/-! ## Stream decoder (parser.go:444-597) -/

/-- Record kind constants (parser.go:444-451). -/
def BBoxKind : Nat := 0xdb
def NodeKind : Nat := 0x10
def WayKind : Nat := 0x11
def RelationKind : Nat := 0x12
def ResetKind : Nat := 0xff
def EndKind : Nat := 0xfe

/-- `O5MReader` (parser.go:453). -/
structure O5MReader where
  r : BaseReader
  err : Option GoErr
  kind : Nat
  offset : Nat
  boundingBox : Option BoundingBox
  node : Node
  way : Way
  nodeId : Int
  relation : Relation
  refIds : List Int
deriving Repr, DecidableEq

/-- `O5MReader.reset` (parser.go:489-496): zero the running node, way and
relation, the shared node-id counter and the three per-type reference
counters, and replace the string table with a fresh one. -/
def O5MReader.reset (s : O5MReader) : O5MReader :=
  { s with node := emptyNode, way := emptyWay, nodeId := 0,
           relation := emptyRelation, r := s.r.Reset, refIds := [0, 0, 0] }

/-- The framing check concluding each record in `Next`
(parser.go:553-558): consumed bytes must equal the declared length. -/
def lengthCheck (s : O5MReader) (length : Int) (start : Nat) : O5MReader × Bool :=
  if ((s.r.read : Int) - (start : Int)) ≠ length then
    ({ s with err := some (.sectionLengthMismatch length ((s.r.read : Int) - (start : Int))) },
      false)
  else (s, true)

/-- Body of one iteration of `O5MReader.Next` (parser.go:500-559), after
`r.offset = r.r.Offset()` has been applied to `s`; `recurse` continues the
loop after a Reset marker. -/
def nextLoopBody (recurse : O5MReader → O5MReader × Bool) (s : O5MReader) :
    O5MReader × Bool :=
    let (k, r1) := s.r.ReadByte
    match r1.err with
    | some e => ({ s with r := r1, err := some (.datasetHeader e) }, false)
    | none =>
      if k = ResetKind then recurse ({ s with r := r1 }).reset
      else if k = EndKind then ({ s with r := r1 }, false)
      else
        let s1 := { s with r := r1, kind := k }
        let (l, r2) := s1.r.ReadUnsigned
        match r2.err with
        | some e => ({ s1 with r := r2, err := some e }, false)
        | none =>
          let s2 := { s1 with r := r2 }
          let length := u64ToI64 l
          let start := s2.r.read
          if k = NodeKind then
            match parseNode s2.r length s2.node with
            | (node, r3, some e) => ({ s2 with r := r3, node := node, err := some e }, false)
            | (node, r3, none) => lengthCheck { s2 with r := r3, node := node } length start
          else if k = WayKind then
            match parseWay s2.r length s2.way s2.nodeId with
            | (way, _, r3, some e) => ({ s2 with r := r3, way := way, err := some e }, false)
            | (way, nid, r3, none) =>
              lengthCheck { s2 with r := r3, way := way, nodeId := nid } length start
          else if k = RelationKind then
            match parseRelation s2.r length s2.relation s2.refIds with
            | (rel, rids, r3, some e) =>
              ({ s2 with r := r3, relation := rel, refIds := rids, err := some e }, false)
            | (rel, rids, r3, none) =>
              lengthCheck { s2 with r := r3, relation := rel, refIds := rids } length start
          else if k = BBoxKind then
            match parseBoundingBox s2.r with
            | (_, r3, some e) => ({ s2 with r := r3, err := some e }, false)
            | (bb, r3, none) => lengthCheck { s2 with r := r3, boundingBox := some bb } length start
          else ({ s2 with err := some (.unsupportedDataset k) }, false)

/-- Loop of `O5MReader.Next` (parser.go:498-561).  Fuel is the remaining
byte count plus one: every Reset iteration consumes exactly one byte. -/
def nextLoop : Nat → O5MReader → O5MReader × Bool
  | 0, s => ({ s with err := some .fuelExhausted }, false)
  | fuel + 1, s0 => nextLoopBody (nextLoop fuel) { s0 with offset := s0.r.read }

/-- `O5MReader.Next` (parser.go:498). -/
def next (s : O5MReader) : O5MReader × Bool :=
  nextLoop (s.r.stream.length - s.r.pos + 1) s

/-- `NewO5MReader` (parser.go:468): parse the header, then reset. -/
def NewO5MReader (stream : List Nat) : Except GoErr O5MReader :=
  match parseHeader (NewBaseReader stream) with
  | (some e, _) => .error e
  | (none, r1) =>
    .ok (O5MReader.reset ⟨r1, none, 0, 0, none, emptyNode, emptyWay, 0, emptyRelation, []⟩)

/-- A record as observed by a caller of `Next` through `Kind`, `Node`,
`Way`, `Relation` and `BoundingBox` (parser.go:567-597). -/
inductive Record where
  | node (n : Node)
  | way (w : Way)
  | relation (rel : Relation)
  | bbox (b : BoundingBox)
  | other (kind : Nat)
deriving Repr, DecidableEq

/-- The record visible after a successful `Next`. -/
def currentRecord (s : O5MReader) : Record :=
  if s.kind = NodeKind then .node s.node
  else if s.kind = WayKind then .way s.way
  else if s.kind = RelationKind then .relation s.relation
  else if s.kind = BBoxKind then .bbox (s.boundingBox.getD ⟨0, 0, 0, 0⟩)
  else .other s.kind

/-- The record sequence produced by repeatedly calling `Next` (at most
`fuel` records). -/
def runRecords : Nat → O5MReader → List Record
  | 0, _ => []
  | fuel + 1, s =>
    match next s with
    | (s1, true) => currentRecord s1 :: runRecords fuel s1
    | (_, false) => []

/-- Reading one byte from an error-free reader positioned at `b :: bs`. -/
lemma ReadByte_eq (r : BaseReader) {b : Nat} {bs : List Nat} (herr : r.err = none)
    (hdrop : r.stream.drop r.pos = b :: bs) :
    r.ReadByte = (b, { r with pos := r.pos + 1, read := r.read + 1 }) := by
  unfold BaseReader.ReadByte
  rw [herr, hdrop]

/-- `nextLoop` ignores the incoming `offset` field whenever it has fuel:
the first action of an iteration overwrites it (parser.go:500). -/
lemma nextLoop_offset_irrelevant (fuel : Nat) (hf : 0 < fuel) (s : O5MReader) (o : Nat) :
    nextLoop fuel { s with offset := o } = nextLoop fuel s := by
  cases fuel with
  | zero => omega
  | succ f => rfl

/-- The decoder state immediately after consuming a Reset marker at
position `q`: position and byte counter advanced past the marker, running
node/way/relation cleared, node-id and reference counters zeroed, fresh
string table (parser.go:507-509 together with reset at 489-496). -/
def resetContinuation (s : O5MReader) (q : Nat) : O5MReader :=
  ⟨⟨s.r.stream, q + 1, NewStringsTable, q + 1, none⟩, s.err, s.kind, s.offset,
    s.boundingBox, emptyNode, emptyWay, 0, emptyRelation, [0, 0, 0]⟩

/-- Consuming a Reset marker live is the same as continuing from the fully
cleared state just past the marker. -/
lemma next_after_reset (s : O5MReader) (q : Nat) (rest : List Nat)
    (herr : s.r.err = none) (hpos : s.r.pos = q) (hread : s.r.read = q)
    (hbyte : s.r.stream.drop q = 255 :: rest) :
    next s = next (resetContinuation s q) := by
  have hlen : s.r.stream.length - q = rest.length + 1 := by
    have h1 : (s.r.stream.drop q).length = s.r.stream.length - q := List.length_drop _ _
    rw [hbyte] at h1
    simp only [List.length_cons] at h1
    omega
  have hfuel1 : s.r.stream.length - s.r.pos + 1 = (rest.length + 1) + 1 := by
    rw [hpos]; omega
  have hfuel2 : (resetContinuation s q).r.stream.length - (resetContinuation s q).r.pos + 1
      = rest.length + 1 := by
    unfold resetContinuation
    dsimp only
    omega
  unfold next
  rw [hfuel1, hfuel2]
  rw [nextLoop]
  unfold nextLoopBody
  have hdrop : s.r.stream.drop s.r.pos = 255 :: rest := by rw [hpos]; exact hbyte
  rw [ReadByte_eq s.r herr hdrop]
  dsimp only
  rw [herr]
  dsimp only
  rw [if_pos (show (255 : Nat) = ResetKind by rfl)]
  rw [← nextLoop_offset_irrelevant (rest.length + 1) (by omega) (resetContinuation s q) q]
  congr 1
  simp [O5MReader.reset, BaseReader.Reset, resetContinuation, hpos, hread]

/-- C6: whenever the decoder reads a record kind byte 0xFF (Reset), it
emits no record: decoding continues (with the same outcome) from the state
just past the marker in which the running node, way and relation, the
shared node-id counter, the three per-type reference counters are all
zeroed and the string table is fresh. -/
theorem reset_marker_spec (s : O5MReader) (q : Nat) (rest : List Nat)
    (herr : s.r.err = none) (hpos : s.r.pos = q) (hread : s.r.read = q)
    (hbyte : s.r.stream.drop q = 255 :: rest) :
    next s = next ⟨⟨s.r.stream, q + 1, NewStringsTable, q + 1, none⟩, s.err, s.kind,
      s.offset, s.boundingBox, emptyNode, emptyWay, 0, emptyRelation, [0, 0, 0]⟩ :=
  next_after_reset s q rest herr hpos hread hbyte

/-- Witness for C6: a concrete two-byte stream `[0xff, 0xfe]` (Reset then
End), starting from a fresh decoder state. -/
theorem reset_marker_spec_witness :
    next ⟨⟨[255, 254], 0, ⟨[], 0⟩, 0, none⟩, none, 0, 0, none, emptyNode, emptyWay, 0,
        emptyRelation, []⟩
      = next ⟨⟨[255, 254], 1, NewStringsTable, 1, none⟩, none, 0, 0, none, emptyNode,
        emptyWay, 0, emptyRelation, [0, 0, 0]⟩ :=
  reset_marker_spec _ 0 [254] rfl rfl rfl rfl

/-- Modelled from the spec (§4.3 checkpoint/seek protocol): the repository
callers use `ResetPoint` and `O5MReader.Seek`, whose definitions are not
among the provided sources.  Per the spec, a checkpoint is the byte offset
immediately after a Reset marker. -/
structure ResetPoint where
  offset : Nat

/-- Modelled from the spec (§4.3): seeking to a checkpoint restores the
byte position and clears the delta counters and the string table exactly as
`O5MReader.reset` does on a live Reset. -/
def O5MReader.Seek (s : O5MReader) (p : ResetPoint) : O5MReader :=
  ⟨⟨s.r.stream, p.offset, NewStringsTable, p.offset, none⟩, s.err, s.kind, s.offset,
    s.boundingBox, emptyNode, emptyWay, 0, emptyRelation, [0, 0, 0]⟩

/-- C1: for a checkpoint taken at a Reset marker (the byte offset just past
the 0xFF byte), decoding onward after rewinding to it is indistinguishable
from continuing the live pass: the very next `Next` outcome coincides, and
the whole remaining record sequence coincides, so one forward pass equals
decode-to-checkpoint, rewind, decode-onward. -/
theorem checkpoint_rewind_equivalence (s : O5MReader) (q : Nat) (rest : List Nat)
    (herr : s.r.err = none) (hpos : s.r.pos = q) (hread : s.r.read = q)
    (hbyte : s.r.stream.drop q = 255 :: rest) :
    next s = next (s.Seek ⟨q + 1⟩) ∧
    ∀ fuel, runRecords fuel s = runRecords fuel (s.Seek ⟨q + 1⟩) := by
  have hnext : next s = next (s.Seek ⟨q + 1⟩) :=
    next_after_reset s q rest herr hpos hread hbyte
  refine ⟨hnext, ?_⟩
  intro fuel
  cases fuel with
  | zero => rfl
  | succ f => simp only [runRecords, hnext]

/-- Witness for C1: a concrete stream `[0xff, 0xdb, 0x01, 0x00, 0xfe]`
(Reset, then a one-byte BBox record, then End), checkpoint at offset 1. -/
theorem checkpoint_rewind_equivalence_witness :
    next ⟨⟨[255, 219, 1, 0, 254], 0, ⟨[], 0⟩, 0, none⟩, none, 0, 0, none, emptyNode,
        emptyWay, 0, emptyRelation, []⟩
      = next (O5MReader.Seek ⟨⟨[255, 219, 1, 0, 254], 0, ⟨[], 0⟩, 0, none⟩, none, 0, 0,
        none, emptyNode, emptyWay, 0, emptyRelation, []⟩ ⟨1⟩) ∧
    runRecords 3 ⟨⟨[255, 219, 1, 0, 254], 0, ⟨[], 0⟩, 0, none⟩, none, 0, 0, none,
        emptyNode, emptyWay, 0, emptyRelation, []⟩
      = runRecords 3 (O5MReader.Seek ⟨⟨[255, 219, 1, 0, 254], 0, ⟨[], 0⟩, 0, none⟩,
        none, 0, 0, none, emptyNode, emptyWay, 0, emptyRelation, []⟩ ⟨1⟩) :=
  ⟨(checkpoint_rewind_equivalence
      ⟨⟨[255, 219, 1, 0, 254], 0, ⟨[], 0⟩, 0, none⟩, none, 0, 0, none, emptyNode,
        emptyWay, 0, emptyRelation, []⟩ 0 [219, 1, 0, 254] rfl rfl rfl rfl).1,
   (checkpoint_rewind_equivalence
      ⟨⟨[255, 219, 1, 0, 254], 0, ⟨[], 0⟩, 0, none⟩, none, 0, 0, none, emptyNode,
        emptyWay, 0, emptyRelation, []⟩ 0 [219, 1, 0, 254] rfl rfl rfl rfl).2 3⟩

/-! ## Stream framing (C7) -/

/-- A successful tag loop consumes exactly its byte budget: the loop is
driven by `length` and exits cleanly only when it reaches 0. -/
lemma parseTagsLoop_consumes : ∀ (fuel : Nat) (length : Int) (tags : List StringPair)
    (r : BaseReader) (tags' : List StringPair) (r' : BaseReader),
    parseTagsLoop fuel length tags r = (.ok tags', r') →
    (r'.read : Int) - (r.read : Int) = length := by
  intro fuel
  induction fuel with
  | zero =>
    intro length tags r tags' r' h
    unfold parseTagsLoop at h
    by_cases hl : length > 0
    · rw [if_pos hl] at h
      simp at h
    · rw [if_neg hl] at h
      by_cases hl2 : length < 0
      · rw [if_pos hl2] at h
        simp at h
      · rw [if_neg hl2] at h
        simp only [Prod.mk.injEq, Except.ok.injEq] at h
        obtain ⟨-, h2⟩ := h
        subst h2
        omega
  | succ f ih =>
    intro length tags r tags' r' h
    unfold parseTagsLoop at h
    by_cases hl : length > 0
    · rw [if_pos hl] at h
      rcases hrs : r.ReadStrings with ⟨⟨k, v⟩, r1⟩
      rw [hrs] at h
      dsimp only at h
      rcases herr : r1.err with _ | e
      · rw [herr] at h
        have h3 := ih _ _ _ _ _ h
        omega
      · rw [herr] at h
        simp at h
    · rw [if_neg hl] at h
      by_cases hl2 : length < 0
      · rw [if_pos hl2] at h
        simp at h
      · rw [if_neg hl2] at h
        simp only [Prod.mk.injEq, Except.ok.injEq] at h
        obtain ⟨-, h2⟩ := h
        subst h2
        omega

/-- A successful `parseNode` consumes exactly the declared length: the tag
loop is budgeted with the declared length minus the fixed part. -/
lemma parseNode_consumes (r : BaseReader) (l : Int) (prev : Node) (nd : Node)
    (r' : BaseReader) (h : parseNode r l prev = (nd, r', none)) :
    (r'.read : Int) - (r.read : Int) = l := by
  unfold parseNode at h
  rcases h1 : r.ReadSigned with ⟨idd, r1⟩
  rw [h1] at h
  dsimp only at h
  rcases h2 : parseMeta r1 prev.meta with ⟨meta, r2⟩
  rw [h2] at h
  dsimp only at h
  rcases h3 : r2.ReadSigned with ⟨lond, r3⟩
  rw [h3] at h
  dsimp only at h
  rcases h4 : r3.ReadSigned with ⟨latd, r4⟩
  rw [h4] at h
  dsimp only at h
  rcases h5 : parseTags r4 (l - ((r4.read : Int) - (r.read : Int))) [] with ⟨res, r5⟩
  rw [h5] at h
  rcases res with e | tags
  · simp at h
  · dsimp only at h
    simp only [Prod.mk.injEq] at h
    obtain ⟨-, h6, h7⟩ := h
    subst h6
    have h8 := parseTagsLoop_consumes _ _ _ _ _ _ h5
    omega

/-- Stepping lemma: a Node record whose payload parser reports an error
makes `Next` fail with that error. -/
lemma next_node_err (s : O5MReader) (k : Nat) (r1 : BaseReader) (l : Nat)
    (r2 : BaseReader) (nd : Node) (r3 : BaseReader) (e : GoErr)
    (hk : s.r.ReadByte = (k, r1)) (hr1 : r1.err = none) (hNode : k = NodeKind)
    (hl : r1.ReadUnsigned = (l, r2)) (hr2 : r2.err = none)
    (hparse : parseNode r2 (u64ToI64 l) s.node = (nd, r3, some e)) :
    next s = (⟨r3, some e, NodeKind, s.r.read, s.boundingBox, nd, s.way, s.nodeId,
      s.relation, s.refIds⟩, false) := by
  subst hNode
  unfold next
  rw [nextLoop]
  unfold nextLoopBody
  try dsimp only
  rw [hk]
  try dsimp only
  rw [hr1]
  try dsimp only
  rw [if_neg (by decide : ¬ (NodeKind = ResetKind)),
    if_neg (by decide : ¬ (NodeKind = EndKind))]
  try dsimp only
  rw [hl]
  try dsimp only
  rw [hr2]
  try dsimp only
  rw [if_pos (rfl : NodeKind = NodeKind), hparse]

/-- Stepping lemma: a Node record whose payload parser succeeds proceeds to
the framing check with start offset `r2.read`. -/
lemma next_node_ok (s : O5MReader) (k : Nat) (r1 : BaseReader) (l : Nat)
    (r2 : BaseReader) (nd : Node) (r3 : BaseReader)
    (hk : s.r.ReadByte = (k, r1)) (hr1 : r1.err = none) (hNode : k = NodeKind)
    (hl : r1.ReadUnsigned = (l, r2)) (hr2 : r2.err = none)
    (hparse : parseNode r2 (u64ToI64 l) s.node = (nd, r3, none)) :
    next s = lengthCheck ⟨r3, s.err, NodeKind, s.r.read, s.boundingBox, nd, s.way,
      s.nodeId, s.relation, s.refIds⟩ (u64ToI64 l) r2.read := by
  subst hNode
  unfold next
  rw [nextLoop]
  unfold nextLoopBody
  try dsimp only
  rw [hk]
  try dsimp only
  rw [hr1]
  try dsimp only
  rw [if_neg (by decide : ¬ (NodeKind = ResetKind)),
    if_neg (by decide : ¬ (NodeKind = EndKind))]
  try dsimp only
  rw [hl]
  try dsimp only
  rw [hr2]
  try dsimp only
  rw [if_pos (rfl : NodeKind = NodeKind), hparse]

/-- Stepping lemma: a BBox record whose payload parser succeeds proceeds to
the framing check. -/
lemma next_bbox_ok (s : O5MReader) (k : Nat) (r1 : BaseReader) (l : Nat)
    (r2 : BaseReader) (bb : BoundingBox) (r3 : BaseReader)
    (hk : s.r.ReadByte = (k, r1)) (hr1 : r1.err = none) (hBox : k = BBoxKind)
    (hl : r1.ReadUnsigned = (l, r2)) (hr2 : r2.err = none)
    (hparse : parseBoundingBox r2 = (bb, r3, none)) :
    next s = lengthCheck ⟨r3, s.err, BBoxKind, s.r.read, some bb, s.node, s.way,
      s.nodeId, s.relation, s.refIds⟩ (u64ToI64 l) r2.read := by
  subst hBox
  unfold next
  rw [nextLoop]
  unfold nextLoopBody
  try dsimp only
  rw [hk]
  try dsimp only
  rw [hr1]
  try dsimp only
  rw [if_neg (by decide : ¬ (BBoxKind = ResetKind)),
    if_neg (by decide : ¬ (BBoxKind = EndKind))]
  try dsimp only
  rw [hl]
  try dsimp only
  rw [hr2]
  try dsimp only
  rw [if_neg (by decide : ¬ (BBoxKind = NodeKind)),
    if_neg (by decide : ¬ (BBoxKind = WayKind)),
    if_neg (by decide : ¬ (BBoxKind = RelationKind)),
    if_pos (rfl : BBoxKind = BBoxKind), hparse]

/-- C7 counterexample: on an otherwise valid Node record (`[0x10, 4, 0, 0,
0, 0]` decodes fine), corrupting the length field from 4 to 5 makes `Next`
fail with a tag-parse error (`could not parse tag: EOF`), not with the
frame-length-mismatch error the claim requires. -/
theorem frame_length_mismatch_counterexample :
    (next ⟨⟨[16, 4, 0, 0, 0, 0, 254], 0, ⟨[], 0⟩, 0, none⟩, none, 0, 0, none,
        emptyNode, emptyWay, 0, emptyRelation, []⟩).2 = true ∧
    (next ⟨⟨[16, 5, 0, 0, 0, 0, 254], 0, ⟨[], 0⟩, 0, none⟩, none, 0, 0, none,
        emptyNode, emptyWay, 0, emptyRelation, []⟩).2 = false ∧
    (next ⟨⟨[16, 5, 0, 0, 0, 0, 254], 0, ⟨[], 0⟩, 0, none⟩, none, 0, 0, none,
        emptyNode, emptyWay, 0, emptyRelation, []⟩).1.err
      = some (.tagParse .eofErr) := by
  refine ⟨?_, ?_, ?_⟩
  · rw [next_node_ok ⟨⟨[16, 4, 0, 0, 0, 0, 254], 0, ⟨[], 0⟩, 0, none⟩, none, 0, 0, none,
        emptyNode, emptyWay, 0, emptyRelation, []⟩ 16
      ⟨[16, 4, 0, 0, 0, 0, 254], 1, ⟨[], 0⟩, 1, none⟩ 4
      ⟨[16, 4, 0, 0, 0, 0, 254], 2, ⟨[], 0⟩, 2, none⟩ emptyNode
      ⟨[16, 4, 0, 0, 0, 0, 254], 6, ⟨[], 0⟩, 6, none⟩ rfl rfl rfl rfl rfl rfl]
    rfl
  · rw [next_node_err ⟨⟨[16, 5, 0, 0, 0, 0, 254], 0, ⟨[], 0⟩, 0, none⟩, none, 0, 0, none,
        emptyNode, emptyWay, 0, emptyRelation, []⟩ 16
      ⟨[16, 5, 0, 0, 0, 0, 254], 1, ⟨[], 0⟩, 1, none⟩ 5
      ⟨[16, 5, 0, 0, 0, 0, 254], 2, ⟨[], 0⟩, 2, none⟩ emptyNode
      ⟨[16, 5, 0, 0, 0, 0, 254], 7, ⟨[], 0⟩, 8, some .eofErr⟩ (.tagParse .eofErr)
      rfl rfl rfl rfl rfl rfl]
  · rw [next_node_err ⟨⟨[16, 5, 0, 0, 0, 0, 254], 0, ⟨[], 0⟩, 0, none⟩, none, 0, 0, none,
        emptyNode, emptyWay, 0, emptyRelation, []⟩ 16
      ⟨[16, 5, 0, 0, 0, 0, 254], 1, ⟨[], 0⟩, 1, none⟩ 5
      ⟨[16, 5, 0, 0, 0, 0, 254], 2, ⟨[], 0⟩, 2, none⟩ emptyNode
      ⟨[16, 5, 0, 0, 0, 0, 254], 7, ⟨[], 0⟩, 8, some .eofErr⟩ (.tagParse .eofErr)
      rfl rfl rfl rfl rfl rfl]

/-- On the fresh 15000-slot table, back-reference 1 resolves without error
to the (empty) most recent slot: the `Get` guard only rejects indices below
0 or above the slot count (parser.go:90), never unfilled slots. -/
lemma NewStringsTable_get_one : NewStringsTable.Get 1 = .ok ([], []) := by
  unfold NewStringsTable StringsTable.Get
  rw [if_neg (by rw [List.length_replicate]; norm_num)]
  dsimp only
  rw [List.length_replicate]
  rw [if_pos (by norm_num : (((0 : Nat) : Int) - 1) < 0)]
  rw [show (((15000 : Nat) : Int) + (((0 : Nat) : Int) - 1)).toNat = 14999 by decide]
  rw [List.getD_eq_getElem?_getD,
    List.getElem?_replicate_of_lt (by omega : (14999 : Nat) < 15000)]
  rfl

/-- C7 (amended): `Next` checks that the bytes consumed by a successful
payload parse equal the declared length, and on mismatch returns false with
the frame-length-mismatch error.  The check is effective for BBox records,
whose payload size does not depend on the declared length (first conjunct):
corrupting a BBox length by one in either direction produces exactly this
error (conjuncts three to five).  For Node records the check is vacuous:
the tag loop is budgeted by the declared length, so a successful parse
always consumes exactly the declared length and the record is accepted
(second conjunct) — and corrupting a Node length by one is not reliably
surfaced as any error at all.  On `[0x10, 5, 0, 0, 0, 0]` followed directly
by the end marker, the one extra budgeted byte hits a tag-parse error (see
`frame_length_mismatch_counterexample`); followed instead by the byte
`0x01`, it is absorbed as a spurious empty back-reference tag and `Next`
succeeds with no error (last three conjuncts).  The absorbing state uses a
one-slot table; the table guard behaves identically on the real fresh
15000-slot table (`NewStringsTable_get_one`), which likewise resolves
back-reference 1 to the empty pair. -/
theorem frame_length_spec :
    (∀ s k r1 l r2 bb r3, s.r.ReadByte = (k, r1) → r1.err = none → k = BBoxKind →
      r1.ReadUnsigned = (l, r2) → r2.err = none →
      parseBoundingBox r2 = (bb, r3, none) →
      ((r3.read : Int) - (r2.read : Int)) ≠ u64ToI64 l →
      (next s).2 = false ∧
      (next s).1.err
        = some (.sectionLengthMismatch (u64ToI64 l) ((r3.read : Int) - (r2.read : Int)))) ∧
    (∀ s k r1 l r2 nd r3, s.r.ReadByte = (k, r1) → r1.err = none → k = NodeKind →
      r1.ReadUnsigned = (l, r2) → r2.err = none →
      parseNode r2 (u64ToI64 l) s.node = (nd, r3, none) →
      ((r3.read : Int) - (r2.read : Int)) = u64ToI64 l ∧
      (next s).2 = true ∧ (next s).1.err = s.err) ∧
    (next ⟨⟨[219, 4, 0, 0, 0, 0, 254], 0, ⟨[], 0⟩, 0, none⟩, none, 0, 0, none,
        emptyNode, emptyWay, 0, emptyRelation, []⟩).2 = true ∧
    (next ⟨⟨[219, 5, 0, 0, 0, 0, 254], 0, ⟨[], 0⟩, 0, none⟩, none, 0, 0, none,
        emptyNode, emptyWay, 0, emptyRelation, []⟩).1.err
      = some (.sectionLengthMismatch 5 4) ∧
    (next ⟨⟨[219, 3, 0, 0, 0, 0, 254], 0, ⟨[], 0⟩, 0, none⟩, none, 0, 0, none,
        emptyNode, emptyWay, 0, emptyRelation, []⟩).1.err
      = some (.sectionLengthMismatch 3 4) ∧
    (next ⟨⟨[16, 5, 0, 0, 0, 0, 1, 254], 0, ⟨[emptyPair], 0⟩, 0, none⟩, none, 0, 0,
        none, emptyNode, emptyWay, 0, emptyRelation, []⟩).2 = true ∧
    (next ⟨⟨[16, 5, 0, 0, 0, 0, 1, 254], 0, ⟨[emptyPair], 0⟩, 0, none⟩, none, 0, 0,
        none, emptyNode, emptyWay, 0, emptyRelation, []⟩).1.err = none ∧
    (next ⟨⟨[16, 5, 0, 0, 0, 0, 1, 254], 0, ⟨[emptyPair], 0⟩, 0, none⟩, none, 0, 0,
        none, emptyNode, emptyWay, 0, emptyRelation, []⟩).1.node.tags = [emptyPair] := by
  refine ⟨?_, ?_, ?_, ?_, ?_, ?_, ?_, ?_⟩
  · intro s k r1 l r2 bb r3 hk hr1 hBox hl hr2 hparse hmis
    rw [next_bbox_ok s k r1 l r2 bb r3 hk hr1 hBox hl hr2 hparse]
    unfold lengthCheck
    rw [if_pos hmis]
    exact ⟨rfl, rfl⟩
  · intro s k r1 l r2 nd r3 hk hr1 hNode hl hr2 hparse
    have hc : (r3.read : Int) - (r2.read : Int) = u64ToI64 l :=
      parseNode_consumes _ _ _ _ _ hparse
    refine ⟨hc, ?_⟩
    rw [next_node_ok s k r1 l r2 nd r3 hk hr1 hNode hl hr2 hparse]
    unfold lengthCheck
    rw [if_neg (fun hcon => hcon hc)]
    exact ⟨rfl, rfl⟩
  · rw [next_bbox_ok ⟨⟨[219, 4, 0, 0, 0, 0, 254], 0, ⟨[], 0⟩, 0, none⟩, none, 0, 0,
      none, emptyNode, emptyWay, 0, emptyRelation, []⟩ 219
      ⟨[219, 4, 0, 0, 0, 0, 254], 1, ⟨[], 0⟩, 1, none⟩ 4
      ⟨[219, 4, 0, 0, 0, 0, 254], 2, ⟨[], 0⟩, 2, none⟩ ⟨0, 0, 0, 0⟩
      ⟨[219, 4, 0, 0, 0, 0, 254], 6, ⟨[], 0⟩, 6, none⟩ rfl rfl rfl rfl rfl rfl]
    rfl
  · rw [next_bbox_ok ⟨⟨[219, 5, 0, 0, 0, 0, 254], 0, ⟨[], 0⟩, 0, none⟩, none, 0, 0,
      none, emptyNode, emptyWay, 0, emptyRelation, []⟩ 219
      ⟨[219, 5, 0, 0, 0, 0, 254], 1, ⟨[], 0⟩, 1, none⟩ 5
      ⟨[219, 5, 0, 0, 0, 0, 254], 2, ⟨[], 0⟩, 2, none⟩ ⟨0, 0, 0, 0⟩
      ⟨[219, 5, 0, 0, 0, 0, 254], 6, ⟨[], 0⟩, 6, none⟩ rfl rfl rfl rfl rfl rfl]
    rfl
  · rw [next_bbox_ok ⟨⟨[219, 3, 0, 0, 0, 0, 254], 0, ⟨[], 0⟩, 0, none⟩, none, 0, 0,
      none, emptyNode, emptyWay, 0, emptyRelation, []⟩ 219
      ⟨[219, 3, 0, 0, 0, 0, 254], 1, ⟨[], 0⟩, 1, none⟩ 3
      ⟨[219, 3, 0, 0, 0, 0, 254], 2, ⟨[], 0⟩, 2, none⟩ ⟨0, 0, 0, 0⟩
      ⟨[219, 3, 0, 0, 0, 0, 254], 6, ⟨[], 0⟩, 6, none⟩ rfl rfl rfl rfl rfl rfl]
    rfl
  all_goals
  · rw [next_node_ok ⟨⟨[16, 5, 0, 0, 0, 0, 1, 254], 0, ⟨[emptyPair], 0⟩, 0, none⟩, none,
        0, 0, none, emptyNode, emptyWay, 0, emptyRelation, []⟩ 16
      ⟨[16, 5, 0, 0, 0, 0, 1, 254], 1, ⟨[emptyPair], 0⟩, 1, none⟩ 5
      ⟨[16, 5, 0, 0, 0, 0, 1, 254], 2, ⟨[emptyPair], 0⟩, 2, none⟩
      ⟨0, emptyMetadata, 0, 0, [emptyPair]⟩
      ⟨[16, 5, 0, 0, 0, 0, 1, 254], 7, ⟨[emptyPair], 0⟩, 7, none⟩ rfl rfl rfl rfl rfl rfl]
    rfl

/-- Witness for C7 (amended): the BBox mismatch arm applied at the length-5
corruption of a 4-byte BBox payload, and the Node arm applied at a concrete
valid Node record. -/
theorem frame_length_spec_witness :
    ((next ⟨⟨[219, 5, 0, 0, 0, 0, 254], 0, ⟨[], 0⟩, 0, none⟩, none, 0, 0, none,
        emptyNode, emptyWay, 0, emptyRelation, []⟩).2 = false ∧
     (next ⟨⟨[219, 5, 0, 0, 0, 0, 254], 0, ⟨[], 0⟩, 0, none⟩, none, 0, 0, none,
        emptyNode, emptyWay, 0, emptyRelation, []⟩).1.err
       = some (.sectionLengthMismatch (u64ToI64 5) (((6 : Nat) : Int) - ((2 : Nat) : Int)))) ∧
    (((6 : Nat) : Int) - ((2 : Nat) : Int) = u64ToI64 4 ∧
     (next ⟨⟨[16, 4, 0, 0, 0, 0, 254], 0, ⟨[], 0⟩, 0, none⟩, none, 0, 0, none,
        emptyNode, emptyWay, 0, emptyRelation, []⟩).2 = true ∧
     (next ⟨⟨[16, 4, 0, 0, 0, 0, 254], 0, ⟨[], 0⟩, 0, none⟩, none, 0, 0, none,
        emptyNode, emptyWay, 0, emptyRelation, []⟩).1.err = none) :=
  ⟨frame_length_spec.1
      ⟨⟨[219, 5, 0, 0, 0, 0, 254], 0, ⟨[], 0⟩, 0, none⟩, none, 0, 0, none,
        emptyNode, emptyWay, 0, emptyRelation, []⟩ 219
      ⟨[219, 5, 0, 0, 0, 0, 254], 1, ⟨[], 0⟩, 1, none⟩ 5
      ⟨[219, 5, 0, 0, 0, 0, 254], 2, ⟨[], 0⟩, 2, none⟩ ⟨0, 0, 0, 0⟩
      ⟨[219, 5, 0, 0, 0, 0, 254], 6, ⟨[], 0⟩, 6, none⟩ rfl rfl rfl rfl rfl rfl
      (by decide),
   frame_length_spec.2.1
      ⟨⟨[16, 4, 0, 0, 0, 0, 254], 0, ⟨[], 0⟩, 0, none⟩, none, 0, 0, none,
        emptyNode, emptyWay, 0, emptyRelation, []⟩ 16
      ⟨[16, 4, 0, 0, 0, 0, 254], 1, ⟨[], 0⟩, 1, none⟩ 4
      ⟨[16, 4, 0, 0, 0, 0, 254], 2, ⟨[], 0⟩, 2, none⟩ emptyNode
      ⟨[16, 4, 0, 0, 0, 0, 254], 6, ⟨[], 0⟩, 6, none⟩ rfl rfl rfl rfl rfl rfl⟩

/-! ## Inclusion resolver (polygons.go).
Ring geometries live in the external geometry engine; its `Contains`
predicate is modelled as an oracle indexed by ring positions, fallible like
the engine calls.  The containment matrix is a total boolean function,
false outside the `n × n` range (Go's slices are simply absent there). -/

/-- One row of the first phase of `computeInclusion` (polygons.go:50-64):
`h[i][j]` becomes true iff `i ≠ j` and the oracle call succeeds with true;
an oracle error aborts everything. -/
def buildInclusionRow (contains : Nat → Nat → Except GoErr Bool) (i n : Nat) :
    Except GoErr (Nat → Bool) :=
  (List.range n).foldlM
    (fun row j =>
      if i = j then .ok row
      else
        match contains i j with
        | .error e => .error e
        | .ok ok => .ok (if ok then fun x => if x = j then true else row x else row))
    (fun _ => false)

/-- First phase of `computeInclusion`: all rows. -/
def buildInclusionMatrix (contains : Nat → Nat → Except GoErr Bool) (n : Nat) :
    Except GoErr (Nat → Nat → Bool) :=
  (List.range n).foldlM
    (fun h i =>
      match buildInclusionRow contains i n with
      | .error e => .error e
      | .ok row => .ok (fun x => if x = i then row else h x))
    (fun _ _ => false)

/-- One step of the mutual-containment clearing pass
(polygons.go:66-73): if `h[i][j]` and `h[j][i]` both hold, clear both. -/
def clearMutual (h : Nat → Nat → Bool) (i j : Nat) : Nat → Nat → Bool :=
  if h i j && h j i then
    fun a b => if (a = i ∧ b = j) ∨ (a = j ∧ b = i) then false else h a b
  else h

/-- The full clearing pass, row-major like the Go loops. -/
def clearMutualPass (n : Nat) (h : Nat → Nat → Bool) : Nat → Nat → Bool :=
  (List.range n).foldl
    (fun h i => (List.range n).foldl (fun h j => clearMutual h i j) h) h

/-- `computeInclusion` (polygons.go:48-75). -/
def computeInclusion (contains : Nat → Nat → Except GoErr Bool) (n : Nat) :
    Except GoErr (Nat → Nat → Bool) :=
  match buildInclusionMatrix contains n with
  | .error e => .error e
  | .ok h => .ok (clearMutualPass n h)

/-- Invariant preservation through a monadic fold over `Except`. -/
lemma foldlM_except_inv {α β : Type} (f : β → α → Except GoErr β) (P : β → Prop) :
    ∀ (L : List α) (b : β), P b →
    (∀ b a, a ∈ L → P b → ∀ b', f b a = .ok b' → P b') →
    ∀ b', L.foldlM f b = .ok b' → P b' := by
  intro L
  induction L with
  | nil =>
    intro b hb _ b' h
    simp only [List.foldlM_nil] at h
    cases h
    exact hb
  | cons a L ih =>
    intro b hb hstep b' h
    simp only [List.foldlM_cons] at h
    rcases hfa : f b a with e | b1
    · rw [hfa] at h
      simp [Bind.bind, Except.bind] at h
    · rw [hfa] at h
      have hb1 : P b1 := hstep b a (List.mem_cons_self a L) hb _ hfa
      have h' : L.foldlM f b1 = .ok b' := h
      exact ih b1 hb1 (fun b a' ha' => hstep b a' (List.mem_cons_of_mem _ ha')) b' h'

/-- A successfully built row is false at the diagonal position and outside
the range. -/
lemma buildInclusionRow_inv (contains : Nat → Nat → Except GoErr Bool) (i n : Nat)
    (row : Nat → Bool) (h : buildInclusionRow contains i n = .ok row) :
    row i = false ∧ ∀ x, n ≤ x → row x = false := by
  refine foldlM_except_inv _ (fun row => row i = false ∧ ∀ x, n ≤ x → row x = false)
    (List.range n) (fun _ => false) ⟨rfl, fun _ _ => rfl⟩ ?_ row h
  intro r j hj ⟨h1, h2⟩ r' h'
  by_cases hij : i = j
  · rw [if_pos hij] at h'
    cases h'
    exact ⟨h1, h2⟩
  · rw [if_neg hij] at h'
    rcases hc : contains i j with e | ok
    · rw [hc] at h'
      cases h'
    · rw [hc] at h'
      cases h'
      cases ok with
      | false => exact ⟨h1, h2⟩
      | true =>
        constructor
        · show (if i = j then true else r i) = false
          rw [if_neg hij]
          exact h1
        · intro x hx
          show (if x = j then true else r x) = false
          have hxj : ¬ x = j := by
            have := List.mem_range.mp hj
            omega
          rw [if_neg hxj]
          exact h2 x hx


/-- A successfully built first-phase matrix is irreflexive and false
outside the `n × n` range. -/
lemma buildInclusionMatrix_inv (contains : Nat → Nat → Except GoErr Bool) (n : Nat)
    (h0 : Nat → Nat → Bool) (h : buildInclusionMatrix contains n = .ok h0) :
    (∀ i, h0 i i = false) ∧ (∀ a b, n ≤ a ∨ n ≤ b → h0 a b = false) := by
  refine foldlM_except_inv _
    (fun h0 => (∀ i, h0 i i = false) ∧ (∀ a b, n ≤ a ∨ n ≤ b → h0 a b = false))
    (List.range n) (fun _ _ => false) ⟨fun _ => rfl, fun _ _ _ => rfl⟩ ?_ h0 h
  intro m i hi him m' h'
  obtain ⟨h1, h2⟩ := him
  rcases hrow : buildInclusionRow contains i n with e | row
  · rw [hrow] at h'
    cases h'
  · rw [hrow] at h'
    cases h'
    obtain ⟨hrd, hro⟩ := buildInclusionRow_inv contains i n row hrow
    constructor
    · intro a
      show (if a = i then row else m a) a = false
      by_cases hai : a = i
      · rw [if_pos hai, hai]
        exact hrd
      · rw [if_neg hai]
        exact h1 a
    · intro a b hab
      show (if a = i then row else m a) b = false
      by_cases hai : a = i
      · rw [if_pos hai]
        rcases hab with hab | hab
        · exfalso
          have := List.mem_range.mp hi
          omega
        · exact hro b hab
      · rw [if_neg hai]
        exact h2 a b hab

/-- A clearing step never turns an entry on. -/
lemma clearMutual_mono (h : Nat → Nat → Bool) (i j a b : Nat)
    (hv : clearMutual h i j a b = true) : h a b = true := by
  unfold clearMutual at hv
  by_cases hc : (h i j && h j i) = true
  · rw [if_pos hc] at hv
    by_cases hm : (a = i ∧ b = j) ∨ (a = j ∧ b = i)
    · rw [if_pos hm] at hv
      cases hv
    · rw [if_neg hm] at hv
      exact hv
  · rw [if_neg hc] at hv
    exact hv

/-- Inner fold of the clearing pass never turns an entry on. -/
lemma clearInner_mono (i : Nat) (L : List Nat) (h : Nat → Nat → Bool) (a b : Nat)
    (hv : (L.foldl (fun h j => clearMutual h i j) h) a b = true) : h a b = true := by
  induction L generalizing h with
  | nil => exact hv
  | cons j L ih =>
    simp only [List.foldl_cons] at hv
    exact clearMutual_mono _ _ _ _ _ (ih _ hv)

/-- Outer fold of the clearing pass never turns an entry on. -/
lemma clearOuter_mono (L M : List Nat) (h : Nat → Nat → Bool) (a b : Nat)
    (hv : (L.foldl (fun h i => M.foldl (fun h j => clearMutual h i j) h) h)
      a b = true) : h a b = true := by
  induction L generalizing h with
  | nil => exact hv
  | cons i L ih =>
    simp only [List.foldl_cons] at hv
    exact clearInner_mono _ _ _ _ _ (ih _ hv)

/-- After the step at `(i, j)` the pair is consistent: not both directions. -/
lemma clearMutual_establishes (h : Nat → Nat → Bool) (i j : Nat) :
    ((clearMutual h i j) i j && (clearMutual h i j) j i) = false := by
  unfold clearMutual
  by_cases hc : (h i j && h j i) = true
  · rw [if_pos hc]
    rw [if_pos (show (i = i ∧ j = j) ∨ (i = j ∧ j = i) from Or.inl ⟨rfl, rfl⟩)]
    rfl
  · rw [if_neg hc]
    cases hij : h i j <;> cases hji : h j i <;> simp_all

/-- Once a pair is consistent it stays so under any further clearing. -/
lemma pair_consistent_preserved (h h' : Nat → Nat → Bool) (i j : Nat)
    (hmono : ∀ a b, h' a b = true → h a b = true)
    (hcon : (h i j && h j i) = false) : (h' i j && h' j i) = false := by
  cases hij : h' i j
  · rfl
  · cases hji : h' j i
    · rfl
    · have ha := hmono _ _ hij
      have hb := hmono _ _ hji
      rw [ha, hb] at hcon
      cases hcon

/-- The inner fold establishes consistency for every `j` it visits. -/
lemma clearInner_establishes (i : Nat) (L : List Nat) (h : Nat → Nat → Bool) (j : Nat)
    (hj : j ∈ L) :
    ((L.foldl (fun h j => clearMutual h i j) h) i j &&
     (L.foldl (fun h j => clearMutual h i j) h) j i) = false := by
  obtain ⟨L1, L2, rfl⟩ := List.append_of_mem hj
  rw [List.foldl_append, List.foldl_cons]
  exact pair_consistent_preserved _ _ i j
    (fun a b hv => clearInner_mono _ _ _ _ _ hv)
    (clearMutual_establishes _ i j)

/-- C9: for every ring collection (modelled by its size and the containment
oracle) the matrix returned by `computeInclusion` is irreflexive and
antisymmetric: no entry on the diagonal, and never both `h[i][j]` and
`h[j][i]` set — mutual containment is cleared in both directions so equal
shapes become siblings. -/
theorem computeInclusion_spec (contains : Nat → Nat → Except GoErr Bool) (n : Nat) :
    match computeInclusion contains n with
    | .error _ => True
    | .ok h => (∀ i, h i i = false) ∧ (∀ i j, (h i j && h j i) = false) := by
  unfold computeInclusion
  rcases hm : buildInclusionMatrix contains n with e | h0
  · exact trivial
  · obtain ⟨hdiag, hout⟩ := buildInclusionMatrix_inv contains n h0 hm
    dsimp only
    constructor
    · intro i
      cases hv : clearMutualPass n h0 i i
      · rfl
      · unfold clearMutualPass at hv
        have hmv := clearOuter_mono _ _ _ _ _ hv
        rw [hdiag i] at hmv
        cases hmv
    · intro i j
      by_cases hin : i < n ∧ j < n
      · unfold clearMutualPass
        obtain ⟨L1, L2, hsplit⟩ := List.append_of_mem (List.mem_range.mpr hin.1)
        rw [hsplit, List.foldl_append, List.foldl_cons]
        exact pair_consistent_preserved _ _ i j
          (fun a b hv => clearOuter_mono _ _ _ a b hv)
          (clearInner_establishes i _ _ j (hsplit ▸ List.mem_range.mpr hin.2))
      · have hfalse : h0 i j = false := by
          apply hout
          omega
        cases hv : clearMutualPass n h0 i j
        · rfl
        · unfold clearMutualPass at hv
          have hmv := clearOuter_mono _ _ _ _ _ hv
          rw [hfalse] at hmv
          cases hmv


/-- `inclusionNode` graphs (polygons.go:77-112) are represented by node
index; the children of `i` are the `j` with `h[i][j]`, in ascending order,
exactly the append order of `makeInclusionGraph`. -/
def matrixChildren (h : Nat → Nat → Bool) (n : Nat) : Nat → List Nat :=
  fun i => (List.range n).filter (fun j => h i j)

/-- The `parents` map of `makeInclusionTree` (polygons.go:117-120):
newest binding first; `(child, (parent, weight))`. -/
def lookupParent (ps : List (Nat × Nat × Nat)) (c : Nat) : Option (Nat × Nat) :=
  (ps.find? (fun q => q.1 == c)).map (fun q => q.2)

mutual
/-- `traverse` of `makeInclusionTree` (polygons.go:124-145): depth-first
walk, cycle detection via the path-local `seen` set (value-passing models
Go's insert-then-delete exactly), keeping the deepest-known parent.  The
fuel bounds the (finite but possibly exponential) number of paths. -/
def travNode (children : Nat → List Nat) : Nat → Nat → Nat → List Nat →
    List (Nat × Nat × Nat) → Except GoErr (List (Nat × Nat × Nat))
  | 0, _, _, _, _ => .error .fuelExhausted
  | fuel + 1, i, weight, seen, parents =>
    if i ∈ seen then .error .cycleDetected
    else travKids children fuel (children i) i weight (i :: seen) parents

/-- The child loop inside `traverse` (polygons.go:131-142). -/
def travKids (children : Nat → List Nat) : Nat → List Nat → Nat → Nat → List Nat →
    List (Nat × Nat × Nat) → Except GoErr (List (Nat × Nat × Nat))
  | 0, _, _, _, _, _ => .error .fuelExhausted
  | _ + 1, [], _, _, _, parents => .ok parents
  | fuel + 1, c :: cs, i, weight, seen, parents =>
    let parents1 :=
      match lookupParent parents c with
      | none => (c, i, weight) :: parents
      | some p => if p.2 < weight then (c, i, weight) :: parents else parents
    match travNode children fuel c (weight + 1) seen parents1 with
    | .error e => .error e
    | .ok ps => travKids children fuel cs i weight seen ps
end

/-- The realized tree after the pruning pass of `makeInclusionTree`
(polygons.go:151-165): a child is kept iff the recorded best parent is the
current node (a missing record acts as the zero value `Parent{Id: 0}`). -/
inductive InclusionTree where
  | node (id : Nat) (children : List InclusionTree)
deriving Repr

/-- The pruning pass (`filter`, polygons.go:153-164), realized per root. -/
def buildTree (children : Nat → List Nat) (parents : List (Nat × Nat × Nat)) :
    Nat → Nat → InclusionTree
  | 0, i => .node i []
  | fuel + 1, i =>
    .node i (((children i).filter (fun c =>
        (match lookupParent parents c with
         | none => 0
         | some p => p.1) == i)).map (buildTree children parents fuel))

/-- `makeInclusionTree` (polygons.go:115-167) on a matrix-derived graph. -/
def makeInclusionTree (children : Nat → List Nat) (n : Nat) (root : Nat) :
    Except GoErr InclusionTree :=
  match travNode children (2 ^ (n + 2) * (n + 2)) root 0 [] [] with
  | .error e => .error e
  | .ok parents => .ok (buildTree children parents (n + 1) root)

/-- `makeInclusionTrees` (polygons.go:169-195) starting from a containment
matrix: roots are the ids without an incoming edge, processed in ascending
order (`for id := range h` over a slice is ordered). -/
def makeInclusionForest (h : Nat → Nat → Bool) (n : Nat) :
    Except GoErr (List InclusionTree) :=
  let children := matrixChildren h n
  let hasParent := fun j => (List.range n).any (fun i => h i j)
  let roots := (List.range n).filter (fun i => !hasParent i)
  roots.foldlM (fun acc root =>
    match makeInclusionTree children n root with
    | .error e => .error e
    | .ok t => .ok (acc ++ [t])) []

/-- C4: a containment matrix containing the two-cycle 1 → 2 → 1 (entries
[1][2] and [2][1] both set, reachable from root 0) makes the inclusion-tree
construction fail with the cycle-detected error instead of returning a
forest. -/
theorem makeInclusionForest_cycle :
    ((fun i j => (i == 0 && (j == 1 || j == 2)) || (i == 1 && j == 2) ||
        (i == 2 && j == 1) : Nat → Nat → Bool) 1 2 = true) ∧
    ((fun i j => (i == 0 && (j == 1 || j == 2)) || (i == 1 && j == 2) ||
        (i == 2 && j == 1) : Nat → Nat → Bool) 2 1 = true) ∧
    makeInclusionForest
      (fun i j => (i == 0 && (j == 1 || j == 2)) || (i == 1 && j == 2) ||
        (i == 2 && j == 1)) 3
      = .error .cycleDetected := by
  exact ⟨rfl, rfl, rfl⟩


/-- `Centroid` (centroid.go:9-13). -/
structure Centroid where
  lon : ℚ
  lat : ℚ
  nodeId : Int
deriving Repr, DecidableEq

/-- A parsed location as consumed by `computeCentroid` (centroid.go): a type
tag and multipolygon coordinates, with exact rational coordinates standing
for the float64 values. -/
structure Location where
  type : String
  coordinates : List (List (List (ℚ × ℚ)))

/-- The geos library behaviors `computeCentroid` observes, as an oracle
indexed by the polygon position: `NewPolygon` success (centroid.go:40),
`Area` (centroid.go:171), and point-in-polygon containment
(`NewPoint` + `Contains`, centroid.go:148-155, errors folded together). -/
structure GeosOracle where
  newPolygon : Nat → Except GoErr Unit
  area : Nat → Except GoErr ℚ
  containsPt : Nat → ℚ × ℚ → Except GoErr Bool

/-- Loop body of `makeGeometriesFromLocation` (centroid.go:23-45); the
geometry built from polygon `i` is represented by the index `i` itself. -/
def makeGeomsAux (g : GeosOracle) : List (List (List (ℚ × ℚ))) → Nat →
    List Nat → Except GoErr (List Nat)
  | [], _, acc => .ok acc
  | poly :: rest, i, acc =>
    if poly.length = 0 then makeGeomsAux g rest (i + 1) (acc ++ [i])
    else
      match g.newPolygon i with
      | .error e => .error e
      | .ok _ => makeGeomsAux g rest (i + 1) (acc ++ [i])

/-- `makeGeometriesFromLocation` (centroid.go:15-47). -/
def makeGeometriesFromLocation (g : GeosOracle) (loc : Location) :
    Except GoErr (List Nat) :=
  if loc.type = "multipolygon" then makeGeomsAux g loc.coordinates 0 []
  else .error .unsupportedLocationType

/-- `getNeighbourVertices` (centroid.go:49-63). -/
def getNeighbourVertices (ringLen i : Nat) : Nat × Nat :=
  (if i > 0 then i - 1 else ringLen - 1, if i < ringLen - 1 then i + 1 else 0)

/-- Loop of `findConvexVertex` (centroid.go:65-78) over the vertex indices. -/
def findConvexVertexAux (ring : List (ℚ × ℚ)) : List Nat → Int
  | [] => -1
  | i :: is =>
    let nb := getNeighbourVertices ring.length i
    let a := ring.getD nb.1 (0, 0)
    let v := ring.getD i (0, 0)
    let b := ring.getD nb.2 (0, 0)
    if 0 ≤ (a.1 - v.1) * (b.2 - v.2) - (a.2 - v.2) * (b.1 - v.1) then (i : Int)
    else findConvexVertexAux ring is

/-- `findConvexVertex` (centroid.go:65-78): first vertex with
non-negative cross product, `-1` when none. -/
def findConvexVertex (ring : List (ℚ × ℚ)) : Int :=
  findConvexVertexAux ring (List.range ring.length)

/-- `isInTriangle` (centroid.go:80-87), barycentric test over ℚ. -/
def isInTriangle (a v b q : ℚ × ℚ) : Bool :=
  let d := (v.2 - b.2) * (a.1 - b.1) + (b.1 - v.1) * (a.2 - b.2)
  let x := ((v.2 - b.2) * (q.1 - b.1) + (b.1 - v.1) * (q.2 - b.2)) / d
  let y := ((b.2 - a.2) * (q.1 - b.1) + (a.1 - b.1) * (q.2 - b.2)) / d
  let z := 1 - x - y
  decide (0 ≤ x ∧ x ≤ 1 ∧ 0 ≤ y ∧ y ≤ 1 ∧ 0 ≤ z ∧ z ≤ 1)

/-- `computeBarycenter` (centroid.go:89-98). -/
def computeBarycenter (ring : List (ℚ × ℚ)) : ℚ × ℚ :=
  let c := ring.foldl (fun c p => (c.1 + p.1, c.2 + p.2)) ((0 : ℚ), (0 : ℚ))
  (c.1 / (ring.length : ℚ), c.2 / (ring.length : ℚ))

/-- The shortest-diagonal loop of `computeSimplePolygonCentroid`
(centroid.go:113-130): state is `(qIndex, qDist)`, both starting at -1. -/
def shortestDiagAux (a v b : ℚ × ℚ) (ring : List (ℚ × ℚ)) (ai vi bi : Nat) :
    List Nat → Int × ℚ → Int × ℚ
  | [], st => st
  | i :: is, st =>
    let st1 :=
      if i = ai ∨ i = vi ∨ i = bi then st
      else if ! isInTriangle a v b (ring.getD i (0, 0)) then st
      else
        let q := ring.getD i (0, 0)
        let dx := v.1 - q.1
        let dy := v.2 - q.2
        let d := dx * dx + dy * dy
        if st.2 < 0 ∨ d < st.2 then ((i : Int), d) else st
    shortestDiagAux a v b ring ai vi bi is st1

/-- `computeSimplePolygonCentroid` (centroid.go:100-145). -/
def computeSimplePolygonCentroid (ring : List (ℚ × ℚ)) : Except GoErr Centroid :=
  let vi := findConvexVertex ring
  if vi < 0 then .error .noConvexVertex
  else
    let viN := vi.toNat
    let nb := getNeighbourVertices ring.length viN
    let a := ring.getD nb.1 (0, 0)
    let v := ring.getD viN (0, 0)
    let b := ring.getD nb.2 (0, 0)
    let qr := shortestDiagAux a v b ring nb.1 viN nb.2 (List.range ring.length) (-1, -1)
    let c : ℚ × ℚ :=
      if qr.1 < 0 then computeBarycenter ring
      else
        let q := ring.getD qr.1.toNat (0, 0)
        ((v.1 + q.1) / 2, (v.2 + q.2) / 2)
    .ok ⟨c.1, c.2, 0⟩

/-- `isCentroidInPolygon` (centroid.go:147-160): point construction and
containment are the oracle's `containsPt`. -/
def isCentroidInPolygon (g : GeosOracle) (c : Centroid) (poly : Nat) :
    Except GoErr Bool :=
  g.containsPt poly (c.lon, c.lat)

/-- The largest-polygon loop of `computeCentroid` (centroid.go:168-179):
state `(maxArea, maxPoly)` starts at `(0, -1)` and is replaced on strict
`area > maxArea`. -/
def largestPolygonAux (g : GeosOracle) : List Nat → Nat → ℚ × Int →
    Except GoErr (ℚ × Int)
  | [], _, st => .ok st
  | p :: ps, i, st =>
    match g.area p with
    | .error e => .error e
    | .ok area =>
      largestPolygonAux g ps (i + 1) (if st.1 < area then (area, (i : Int)) else st)

/-- The largest-polygon search of `computeCentroid` (centroid.go:167-179). -/
def largestPolygon (g : GeosOracle) (polys : List Nat) : Except GoErr (ℚ × Int) :=
  largestPolygonAux g polys 0 (0, -1)

/-- `computeCentroid` (centroid.go:162-217): `.ok none` is Go's
`return nil, nil`. -/
def computeCentroid (g : GeosOracle) (loc : Location) :
    Except GoErr (Option Centroid) :=
  match makeGeometriesFromLocation g loc with
  | .error e => .error e
  | .ok polygons =>
    match largestPolygon g polygons with
    | .error e => .error e
    | .ok st =>
      if st.2 < 0 then .ok none
      else
        let mp := st.2.toNat
        let poly := loc.coordinates.getD mp []
        if poly.length ≤ 0 then .error .invalidEmptyPolygon
        else
          let outer := poly.getD 0 []
          let center := computeBarycenter (outer.drop 1)
          let c : Centroid := ⟨center.1, center.2, 0⟩
          match isCentroidInPolygon g c (polygons.getD mp 0) with
          | .error e => .error e
          | .ok true => .ok (some c)
          | .ok false =>
            match computeSimplePolygonCentroid (outer.drop 1) with
            | .error e => .error e
            | .ok c2 =>
              match isCentroidInPolygon g c2 (polygons.getD mp 0) with
              | .error e => .error e
              | .ok true => .ok (some c2)
              | .ok false => .ok none


/-- When every area evaluates without error to a non-positive value, the
largest-polygon search keeps its initial state `(0, -1)`: the comparison
`area > maxArea` is strict and `maxArea` starts at 0. -/
theorem largestPolygonAux_nonpos (g : GeosOracle) (α : Nat → ℚ) (L : List Nat)
    (k : Nat) (h : ∀ i ∈ L, g.area i = .ok (α i)) (hle : ∀ i ∈ L, α i ≤ 0) :
    largestPolygonAux g L k (0, -1) = .ok (0, -1) := by
  induction L generalizing k with
  | nil => rfl
  | cons p ps ih =>
    unfold largestPolygonAux
    rw [h p (by simp)]
    dsimp only
    rw [if_neg (not_lt.mpr (hle p (by simp)))]
    exact ih (k + 1) (fun i hi => h i (by simp [hi])) (fun i hi => hle i (by simp [hi]))

/-- C10: computeCentroid returns Go's `nil, nil` (here `.ok none`) — a
defined non-error outcome — in both situations the claim describes: (first
conjunct) when every sub-polygon's area evaluates without error to a
non-positive value, so the strict `area > maxArea` comparison against the
initial maximum 0 never fires and `maxPoly` stays -1; and (second conjunct)
when a largest sub-polygon is selected but the barycenter candidate and then
the ear-construction candidate both fail the point-in-polygon validation
against the polygon (both checks returning false without error). -/
theorem computeCentroid_spec (g : GeosOracle) (loc : Location)
    (polys : List Nat) (hg : makeGeometriesFromLocation g loc = .ok polys) :
    (∀ α : Nat → ℚ, (∀ i ∈ polys, g.area i = .ok (α i)) →
      (∀ i ∈ polys, α i ≤ 0) → computeCentroid g loc = .ok none) ∧
    (∀ (A : ℚ) (mp : Nat) (c2 : Centroid),
      largestPolygon g polys = .ok (A, (mp : Int)) →
      0 < (loc.coordinates.getD mp []).length →
      isCentroidInPolygon g
        ⟨(computeBarycenter (((loc.coordinates.getD mp []).getD 0 []).drop 1)).1,
         (computeBarycenter (((loc.coordinates.getD mp []).getD 0 []).drop 1)).2, 0⟩
        (polys.getD mp 0) = .ok false →
      computeSimplePolygonCentroid (((loc.coordinates.getD mp []).getD 0 []).drop 1)
        = .ok c2 →
      isCentroidInPolygon g c2 (polys.getD mp 0) = .ok false →
      computeCentroid g loc = .ok none) := by
  constructor
  · intro α h hle
    unfold computeCentroid
    rw [hg]
    dsimp only
    unfold largestPolygon
    rw [largestPolygonAux_nonpos g α polys 0 h hle]
    dsimp only
    rw [if_pos (by decide : (-1 : Int) < 0)]
  · intro A mp c2 hlp hlen hbar hear hc2
    unfold computeCentroid
    rw [hg]
    dsimp only
    rw [hlp]
    dsimp only
    rw [if_neg (by omega : ¬ ((mp : Int) < 0))]
    simp only [Int.toNat_natCast]
    rw [if_neg (by omega : ¬ (loc.coordinates.getD mp []).length ≤ 0)]
    try dsimp only
    rw [hbar]
    dsimp only
    rw [hear]
    dsimp only
    rw [hc2]

/-- The square outer ring used by the witness, as a one-polygon
multipolygon location. -/
def locSq : Location :=
  ⟨"multipolygon",
   [[[((0 : ℚ), (0 : ℚ)), (0, 4), (4, 4), (4, 0), (0, 0)]]]⟩

/-- Oracle whose polygon has area 16 and contains no point. -/
def gPip : GeosOracle := ⟨fun _ => .ok (), fun _ => .ok 16, fun _ _ => .ok false⟩

/-- Oracle whose polygon has area 0. -/
def gZero : GeosOracle := ⟨fun _ => .ok (), fun _ => .ok 0, fun _ _ => .ok false⟩

theorem computeCentroid_spec_witness :
    computeCentroid gZero locSq = .ok none ∧ computeCentroid gPip locSq = .ok none :=
  ⟨(computeCentroid_spec gZero locSq [0] rfl).1 (fun _ => 0)
      (fun _ _ => rfl) (fun _ _ => le_refl 0),
   (computeCentroid_spec gPip locSq [0] rfl).2 16 0 ⟨2, 2, 0⟩
      (by rfl) (by decide) (by rfl) (by with_unfolding_all rfl) (by rfl)⟩


/-- `Point` (geojson.go:12-15): scaled integer coordinates. -/
structure Point where
  lon : Int
  lat : Int
deriving Repr, DecidableEq

/-- `Linestring` (part_000:10-14). -/
structure Linestring where
  id : Int
  role : String
  points : List Point
deriving Repr, DecidableEq

/-- Zero value standing for Go's nil/empty linestring at out-of-range
slice reads (never hit on in-range runs). -/
def lsDflt : Linestring := ⟨0, "", []⟩

/-- `Linestring.Start` (part_000:16-18); `Points[0]` with a default for the
empty case Go would panic on. -/
def Linestring.StartP (l : Linestring) : Point := l.points.headD ⟨0, 0⟩

/-- `Linestring.End` (part_000:20-22). -/
def Linestring.EndP (l : Linestring) : Point := l.points.getLastD ⟨0, 0⟩

/-- `Linestring.Reverse` (part_000:34-40). -/
def Linestring.Reverse (l : Linestring) : Linestring :=
  { l with points := l.points.reverse }

/-- `RingParts` (part_000:58-63); Go's `end` field is `endp` here. -/
structure RingParts where
  parts : List Linestring
  start : Point
  endp : Point
  role : String
deriving Repr, DecidableEq

/-- `RingParts.Push` (part_000:80-91): `none` is Go's
"ring and part are not linked" panic. -/
def RingParts.Push (r : RingParts) (p : Linestring) : Option RingParts :=
  let p := if p.EndP = r.endp then p.Reverse else p
  if r.endp = p.StartP then
    some { r with endp := p.EndP, parts := r.parts ++ [p] }
  else none

/-- The joining loop of `RingParts.MakeRing` (part_000:169-177). -/
def ringJoinLoop : Linestring → List Linestring → Except GoErr Linestring
  | base, [] => .ok base
  | base, other :: rest =>
    if base.EndP ≠ other.StartP then .error (.contractViolation ("parts are not linked"))
    else
      let pts := base.points ++ other.points.drop 1
      let role := if base.role ≠ "" ∧ base.role ≠ other.role then "" else base.role
      ringJoinLoop { base with points := pts, role := role } rest

/-- `RingParts.MakeRing` (part_000:161-182); Go panics become
`contractViolation` errors. -/
def RingParts.MakeRing (r : RingParts) : Except GoErr Linestring :=
  if r.start ≠ r.endp then .error (.contractViolation ("ring must be closed"))
  else if r.parts.length = 0 then .error (.contractViolation ("ring has no part"))
  else
    match ringJoinLoop (r.parts.headD lsDflt) (r.parts.drop 1) with
    | .error e => .error e
    | .ok base =>
      if base.StartP ≠ base.EndP then .error (.contractViolation ("unclosed ring"))
      else .ok base

/-- `unionNode`/`UnionFind` (unionfind.go): parent pointers as indices. -/
structure UF where
  parent : List Nat
  rank : List Nat
deriving Repr, DecidableEq

/-- `NewUnionFind` (unionfind.go): every node is its own parent, rank 0. -/
def NewUnionFind (n : Nat) : UF := ⟨List.range n, List.replicate n 0⟩

/-- `UnionFind.find` (unionfind.go): pointer chasing, fuel-bounded (chains
are shorter than the node count). -/
def ufFind (parent : List Nat) : Nat → Nat → Nat
  | 0, i => i
  | fuel + 1, i =>
    let p := parent.getD i i
    if p = i then i else ufFind parent fuel p

/-- `UnionFind.Find` (unionfind.go). -/
def UF.Find (u : UF) (i : Nat) : Nat := ufFind u.parent u.parent.length i

/-- `UnionFind.Merge` (unionfind.go): union by rank, ties root at the
first argument and bump its rank. -/
def UF.Merge (u : UF) (i1 i2 : Nat) : UF :=
  let n1 := u.Find i1
  let n2 := u.Find i2
  if n1 = n2 then u
  else if u.rank.getD n1 0 < u.rank.getD n2 0 then { u with parent := u.parent.set n1 n2 }
  else if u.rank.getD n2 0 < u.rank.getD n1 0 then { u with parent := u.parent.set n2 n1 }
  else ⟨u.parent.set n2 n1, u.rank.set n1 (u.rank.getD n1 0 + 1)⟩

/-- `mergeLines` (part_000:114-125) as a function: returns the merged
first line and the (possibly reversed) second; `contractViolation` is the
"unrelated lines" panic. -/
def mergeLines (l1 l2 : Linestring) : Except GoErr (Linestring × Linestring) :=
  let l2 := if l1.StartP = l2.StartP ∨ l1.EndP = l2.EndP then l2.Reverse else l2
  if l1.EndP = l2.StartP then
    .ok ({ l1 with points := l1.points ++ l2.points.drop 1 }, l2)
  else if l1.StartP = l2.EndP then
    .ok ({ l1 with points := l2.points ++ l1.points.drop 1 }, l2)
  else .error (.contractViolation ("unrelated lines"))

/-- One insertion into the endpoint-to-indices map of `mergeArcs`
(part_000:128-134); the Go map is modelled as an association list in key
first-insertion order. -/
def epAddIdx (m : List (Point × List Nat)) (p : Point) (i : Nat) :
    List (Point × List Nat) :=
  if (m.find? (fun e => e.1 == p)).isSome then
    m.map (fun e => if e.1 == p then (e.1, e.2 ++ [i]) else e)
  else m ++ [(p, [i])]

/-- The index-map construction loop of `mergeArcs` (part_000:128-134). -/
def makeEndpointIdxAux : List Linestring → Nat → List (Point × List Nat) →
    List (Point × List Nat)
  | [], _, m => m
  | l :: rest, i, m =>
    makeEndpointIdxAux rest (i + 1) (epAddIdx (epAddIdx m l.StartP i) l.EndP i)

/-- The merging loop of `mergeArcs` (part_000:137-149); Go's map iteration
is modelled in key first-insertion order. -/
def mergeArcsLoop : List (Point × List Nat) → List Linestring → UF →
    Except GoErr (List Linestring × UF)
  | [], lines, uf => .ok (lines, uf)
  | (_, indices) :: rest, lines, uf =>
    if indices.length ≠ 2 then mergeArcsLoop rest lines uf
    else
      let i := uf.Find (indices.getD 0 0)
      let j := uf.Find (indices.getD 1 0)
      if i = j then mergeArcsLoop rest lines uf
      else
        let uf1 := uf.Merge i j
        match mergeLines (lines.getD i lsDflt) (lines.getD j lsDflt) with
        | .error e => .error e
        | .ok (m, l2r) =>
          mergeArcsLoop rest (((lines.set i m).set j l2r).set (uf1.Find i) m) uf1

/-- `mergeArcs` (part_000:127-157): merge lines meeting at endpoints shared
by exactly two lines, then keep union-find roots. -/
def mergeArcs (lines : List Linestring) : Except GoErr (List Linestring) :=
  match mergeArcsLoop (makeEndpointIdxAux lines 0 []) lines (NewUnionFind lines.length) with
  | .error e => .error e
  | .ok (lines1, uf) =>
    .ok (((List.range lines.length).filter (fun i => uf.Find i = i)).map
      (fun i => lines1.getD i lsDflt))

/-- One insertion into the endpoint-to-lines map of `makeEndpoints`
(part_000:103-112), association list in key first-insertion order. -/
def epAddLine (m : List (Point × List Linestring)) (p : Point) (l : Linestring) :
    List (Point × List Linestring) :=
  if (m.find? (fun e => e.1 == p)).isSome then
    m.map (fun e => if e.1 == p then (e.1, e.2 ++ [l]) else e)
  else m ++ [(p, [l])]

/-- `makeEndpoints` (part_000:103-112). -/
def makeEndpoints (lines : List Linestring) : List (Point × List Linestring) :=
  lines.foldl (fun m line => epAddLine (epAddLine m line.StartP line) line.EndP line) []

/-- Map lookup `endPoints[p]` with the Go zero value `[]` for a missing key. -/
def epLookup (m : List (Point × List Linestring)) (p : Point) : List Linestring :=
  ((m.find? (fun e => e.1 == p)).map (fun e => e.2)).getD []


mutual
/-- `makeRing` (part_000:214-241): when the parts close, build and validate
the ring (`isValidRing` is the geos oracle parameter); otherwise try
candidates sharing the current end point.  `.ok none` is Go's nil return;
the fuel bounds the depth-first search. -/
def makeRingF (oracle : Linestring → Bool) (ep : List (Point × List Linestring)) :
    Nat → RingParts → List Int → Except GoErr (Option (Linestring × List Int))
  | 0, _, _ => .ok none
  | fuel + 1, parts, seen =>
    if parts.start = parts.endp then
      match parts.MakeRing with
      | .error e => .error e
      | .ok r => if oracle r then .ok (some (r, seen)) else .ok none
    else ringCandLoop oracle ep fuel (epLookup ep parts.endp) parts seen

/-- The candidate loop of `makeRing` (part_000:224-239): skip seen or
unlinked lines, push, recurse, and on failure pop and unmark (value
passing: reuse the loop's own `parts` and `seen`). -/
def ringCandLoop (oracle : Linestring → Bool) (ep : List (Point × List Linestring)) :
    Nat → List Linestring → RingParts → List Int →
    Except GoErr (Option (Linestring × List Int))
  | 0, _, _, _ => .ok none
  | _ + 1, [], _, _ => .ok none
  | fuel + 1, next :: rest, parts, seen =>
    if next.id ∈ seen then ringCandLoop oracle ep fuel rest parts seen
    else if next.StartP ≠ parts.endp ∧ next.EndP ≠ parts.endp then
      ringCandLoop oracle ep fuel rest parts seen
    else
      match parts.Push next with
      | none => .error (.contractViolation ("ring and part are not linked"))
      | some parts1 =>
        match makeRingF oracle ep fuel parts1 (next.id :: seen) with
        | .error e => .error e
        | .ok (some res) => .ok (some res)
        | .ok none => ringCandLoop oracle ep fuel rest parts seen
end

/-- The ring-collection loop of `makeRings` (part_000:252-267): lines whose
id was already seen are skipped; a nil `makeRing` result is the
"cannot close ring" error naming the current line's id. -/
def makeRingsLoop (oracle : Linestring → Bool) (ep : List (Point × List Linestring))
    (fuel : Nat) : List Linestring → List Int → List Linestring →
    Except GoErr (List Linestring)
  | [], _, rings => .ok rings
  | line :: rest, seen, rings =>
    if line.id ∈ seen then makeRingsLoop oracle ep fuel rest seen rings
    else
      match makeRingF oracle ep fuel ⟨[line], line.StartP, line.EndP, ""⟩
          (line.id :: seen) with
      | .error e => .error e
      | .ok none => .error (.cannotCloseRing line.id)
      | .ok (some (r, seen1)) => makeRingsLoop oracle ep fuel rest seen1 (rings ++ [r])

/-- `makeRings` (part_000:246-269): merge arcs, then assemble rings; the
fuel covers the deepest possible search over the merged lines. -/
def makeRings (oracle : Linestring → Bool) (lines : List Linestring) :
    Except GoErr (List Linestring) :=
  match mergeArcs lines with
  | .error e => .error e
  | .ok merged =>
    makeRingsLoop oracle (makeEndpoints merged)
      ((2 * merged.length + 2) * (merged.length + 2) + 2) merged [] []


/-- First closed triangle with id 7. -/
def lineA7 : Linestring := ⟨7, "", [⟨0, 0⟩, ⟨1, 0⟩, ⟨0, 1⟩, ⟨0, 0⟩]⟩

/-- Second, disjoint closed triangle that also carries id 7. -/
def lineB7 : Linestring := ⟨7, "", [⟨5, 5⟩, ⟨6, 5⟩, ⟨5, 6⟩, ⟨5, 5⟩]⟩

/-- C8 counterexample: two disjoint closed triangles share id 7; with the
ring-validity oracle accepting everything, makeRings succeeds returning only
the first triangle — the second input line is consumed into no returned ring
and no error is raised, because the per-id `seen` set makes the collection
loop silently skip any line whose id was already processed
(part_000:253-255). -/
theorem makeRings_duplicate_id_drop :
    makeRings (fun _ => true) [lineA7, lineB7] = .ok [lineA7] ∧ lineB7 ≠ lineA7 := by
  constructor
  · rfl
  · decide


theorem MakeRing_closed (r : RingParts) (base : Linestring)
    (h : r.MakeRing = .ok base) : base.StartP = base.EndP := by
  unfold RingParts.MakeRing at h
  split at h
  · exact absurd h (by simp)
  · split at h
    · exact absurd h (by simp)
    · cases hj : ringJoinLoop (r.parts.headD lsDflt) (r.parts.drop 1) with
      | error e => rw [hj] at h; exact absurd h (by simp)
      | ok b =>
        rw [hj] at h
        dsimp only at h
        split at h
        · exact absurd h (by simp)
        · next hne =>
            rw [not_not] at hne
            cases h
            exact hne

theorem ringF_closed (oracle : Linestring → Bool)
    (ep : List (Point × List Linestring)) : ∀ fuel : Nat,
    (∀ parts seen r s1, makeRingF oracle ep fuel parts seen = .ok (some (r, s1)) →
      r.StartP = r.EndP) ∧
    (∀ cands parts seen r s1,
      ringCandLoop oracle ep fuel cands parts seen = .ok (some (r, s1)) →
      r.StartP = r.EndP) := by
  intro fuel
  induction fuel with
  | zero =>
    constructor
    · intro parts seen r s1 h
      exact absurd h (by simp [makeRingF])
    · intro cands parts seen r s1 h
      exact absurd h (by simp [ringCandLoop])
  | succ n ih =>
    constructor
    · intro parts seen r s1 h
      rw [makeRingF] at h
      split at h
      · cases hm : parts.MakeRing with
        | error e => rw [hm] at h; exact absurd h (by simp)
        | ok r0 =>
          rw [hm] at h
          dsimp only at h
          split at h
          · cases h
            exact MakeRing_closed parts _ hm
          · exact absurd h (by simp)
      · exact ih.2 _ _ _ _ _ h
    · intro cands parts seen r s1 h
      cases cands with
      | nil => exact absurd h (by simp [ringCandLoop])
      | cons next rest =>
        rw [ringCandLoop] at h
        split at h
        · exact ih.2 _ _ _ _ _ h
        · split at h
          · exact ih.2 _ _ _ _ _ h
          · cases hp : parts.Push next with
            | none => rw [hp] at h; exact absurd h (by simp)
            | some parts1 =>
              rw [hp] at h
              dsimp only at h
              cases hf : makeRingF oracle ep n parts1 (next.id :: seen) with
              | error e => rw [hf] at h; exact absurd h (by simp)
              | ok o =>
                rw [hf] at h
                cases o with
                | none => exact ih.2 _ _ _ _ _ h
                | some res =>
                  dsimp only at h
                  cases h
                  exact ih.1 _ _ _ _ hf

theorem mergeLines_err (l1 l2 : Linestring) (e : GoErr)
    (h : mergeLines l1 l2 = .error e) : ∃ m, e = .contractViolation m := by
  unfold mergeLines at h
  split at h <;> dsimp only at h
  · split at h
    · exact absurd h (by simp)
    · split at h
      · exact absurd h (by simp)
      · cases h; exact ⟨_, rfl⟩
  · split at h
    · exact absurd h (by simp)
    · split at h
      · exact absurd h (by simp)
      · cases h; exact ⟨_, rfl⟩

theorem mergeLines_ids (l1 l2 m r2 : Linestring)
    (h : mergeLines l1 l2 = .ok (m, r2)) : m.id = l1.id ∧ r2.id = l2.id := by
  unfold mergeLines at h
  split at h <;> dsimp only at h
  · split at h
    · cases h; exact ⟨rfl, by simp [Linestring.Reverse]⟩
    · split at h
      · cases h; exact ⟨rfl, by simp [Linestring.Reverse]⟩
      · exact absurd h (by simp)
  · split at h
    · cases h; exact ⟨rfl, rfl⟩
    · split at h
      · cases h; exact ⟨rfl, rfl⟩
      · exact absurd h (by simp)

theorem ringJoinLoop_err : ∀ (rest : List Linestring) (base : Linestring) (e : GoErr),
    ringJoinLoop base rest = .error e → ∃ m, e = .contractViolation m := by
  intro rest
  induction rest with
  | nil =>
    intro base e h
    exact absurd h (by simp [ringJoinLoop])
  | cons o rest ih =>
    intro base e h
    rw [ringJoinLoop] at h
    split at h
    · cases h; exact ⟨_, rfl⟩
    · exact ih _ _ h

theorem MakeRing_err (r : RingParts) (e : GoErr) (h : r.MakeRing = .error e) :
    ∃ m, e = .contractViolation m := by
  unfold RingParts.MakeRing at h
  split at h
  · cases h; exact ⟨_, rfl⟩
  · split at h
    · cases h; exact ⟨_, rfl⟩
    · cases hj : ringJoinLoop (r.parts.headD lsDflt) (r.parts.drop 1) with
      | error e1 =>
        rw [hj] at h
        cases h
        exact ringJoinLoop_err _ _ _ hj
      | ok b =>
        rw [hj] at h
        dsimp only at h
        split at h
        · cases h; exact ⟨_, rfl⟩
        · exact absurd h (by simp)

theorem ringF_err (oracle : Linestring → Bool)
    (ep : List (Point × List Linestring)) : ∀ fuel : Nat,
    (∀ parts seen e, makeRingF oracle ep fuel parts seen = .error e →
      ∃ m, e = .contractViolation m) ∧
    (∀ cands parts seen e, ringCandLoop oracle ep fuel cands parts seen = .error e →
      ∃ m, e = .contractViolation m) := by
  intro fuel
  induction fuel with
  | zero =>
    constructor
    · intro parts seen e h
      exact absurd h (by simp [makeRingF])
    · intro cands parts seen e h
      exact absurd h (by simp [ringCandLoop])
  | succ n ih =>
    constructor
    · intro parts seen e h
      rw [makeRingF] at h
      split at h
      · cases hm : parts.MakeRing with
        | error e0 =>
          rw [hm] at h
          cases h
          exact MakeRing_err _ _ hm
        | ok r0 =>
          rw [hm] at h
          dsimp only at h
          split at h <;> exact absurd h (by simp)
      · exact ih.2 _ _ _ _ h
    · intro cands parts seen e h
      cases cands with
      | nil => exact absurd h (by simp [ringCandLoop])
      | cons next rest =>
        rw [ringCandLoop] at h
        split at h
        · exact ih.2 _ _ _ _ h
        · split at h
          · exact ih.2 _ _ _ _ h
          · cases hp : parts.Push next with
            | none =>
              rw [hp] at h
              cases h
              exact ⟨_, rfl⟩
            | some parts1 =>
              rw [hp] at h
              dsimp only at h
              cases hf : makeRingF oracle ep n parts1 (next.id :: seen) with
              | error e0 =>
                rw [hf] at h
                cases h
                exact ih.1 _ _ _ hf
              | ok o =>
                rw [hf] at h
                cases o with
                | none => exact ih.2 _ _ _ _ h
                | some res => exact absurd h (by simp)

theorem makeRingsLoop_spec (oracle : Linestring → Bool)
    (ep : List (Point × List Linestring)) (fuel : Nat) (ls : List Linestring)
    (seen : List Int) (acc : List Linestring)
    (hacc : ∀ r ∈ acc, r.StartP = r.EndP) :
    (∀ rings, makeRingsLoop oracle ep fuel ls seen acc = .ok rings →
      ∀ r ∈ rings, r.StartP = r.EndP) ∧
    (∀ i, makeRingsLoop oracle ep fuel ls seen acc = .error (.cannotCloseRing i) →
      i ∈ ls.map Linestring.id) := by
  induction ls generalizing seen acc with
  | nil =>
    refine ⟨fun rings h => ?_, fun i h => absurd h (by simp [makeRingsLoop])⟩
    rw [makeRingsLoop] at h
    cases h
    exact hacc
  | cons line rest ih =>
    constructor
    · intro rings h
      rw [makeRingsLoop] at h
      split at h
      · exact (ih seen acc hacc).1 rings h
      · cases hf : makeRingF oracle ep fuel ⟨[line], line.StartP, line.EndP, ""⟩
            (line.id :: seen) with
        | error e => rw [hf] at h; exact absurd h (by simp)
        | ok o =>
          rw [hf] at h
          cases o with
          | none => exact absurd h (by simp)
          | some res =>
            dsimp only at h
            have hcl : res.1.StartP = res.1.EndP :=
              (ringF_closed oracle ep fuel).1 _ _ _ _ (by rw [hf])
            have hacc1 : ∀ r ∈ acc ++ [res.1], r.StartP = r.EndP := by
              intro r hr
              rcases List.mem_append.mp hr with hr | hr
              · exact hacc r hr
              · rcases List.mem_singleton.mp hr with rfl
                exact hcl
            exact (ih res.2 (acc ++ [res.1]) hacc1).1 rings h
    · intro i h
      rw [makeRingsLoop] at h
      split at h
      · exact List.mem_cons_of_mem _ ((ih seen acc hacc).2 i h)
      · cases hf : makeRingF oracle ep fuel ⟨[line], line.StartP, line.EndP, ""⟩
            (line.id :: seen) with
        | error e =>
          rw [hf] at h
          cases h
          rcases (ringF_err oracle ep fuel).1 _ _ _ hf with ⟨msg, hmsg⟩
          cases hmsg
        | ok o =>
          rw [hf] at h
          cases o with
          | none =>
            cases h
            exact List.mem_cons_self _ _
          | some res =>
            dsimp only at h
            have hcl : res.1.StartP = res.1.EndP :=
              (ringF_closed oracle ep fuel).1 _ _ _ _ (by rw [hf])
            have hacc1 : ∀ r ∈ acc ++ [res.1], r.StartP = r.EndP := by
              intro r hr
              rcases List.mem_append.mp hr with hr | hr
              · exact hacc r hr
              · rcases List.mem_singleton.mp hr with rfl
                exact hcl
            exact List.mem_cons_of_mem _ ((ih res.2 (acc ++ [res.1]) hacc1).2 i h)

theorem ufFind_lt (parent : List Nat) (n : Nat) (hlen : parent.length = n)
    (hb : ∀ p ∈ parent, p < n) : ∀ fuel i, i < n → ufFind parent fuel i < n := by
  intro fuel
  induction fuel with
  | zero => intro i hi; exact hi
  | succ f ih =>
    intro i hi
    simp only [ufFind]
    split
    · exact hi
    · apply ih
      apply hb
      have hil : i < parent.length := by omega
      rw [List.getD_eq_getElem?_getD, List.getElem?_eq_getElem hil]
      exact List.getElem_mem hil

theorem UF_Find_lt (u : UF) (n : Nat) (hlen : u.parent.length = n)
    (hb : ∀ p ∈ u.parent, p < n) (i : Nat) (hi : i < n) : u.Find i < n :=
  ufFind_lt u.parent n hlen hb u.parent.length i hi

theorem UF_Merge_ok (u : UF) (n : Nat) (hlen : u.parent.length = n)
    (hb : ∀ p ∈ u.parent, p < n) (i1 i2 : Nat) (h1 : i1 < n) (h2 : i2 < n) :
    (u.Merge i1 i2).parent.length = n ∧ ∀ p ∈ (u.Merge i1 i2).parent, p < n := by
  have hf1 : u.Find i1 < n := UF_Find_lt u n hlen hb i1 h1
  have hf2 : u.Find i2 < n := UF_Find_lt u n hlen hb i2 h2
  simp only [UF.Merge]
  split
  · exact ⟨hlen, hb⟩
  · split
    · refine ⟨by simp [hlen], fun p hp => ?_⟩
      rcases List.mem_or_eq_of_mem_set hp with hp | rfl
      · exact hb p hp
      · exact hf2
    · split
      all_goals refine ⟨by simp [hlen], fun p hp => ?_⟩
      all_goals rcases List.mem_or_eq_of_mem_set hp with hp | rfl
      · exact hb p hp
      · exact hf1
      · exact hb p hp
      · exact hf1

theorem epAddIdx_bound (m : List (Point × List Nat)) (p : Point) (i n : Nat)
    (hm : ∀ e ∈ m, ∀ k ∈ e.2, k < n) (hi : i < n) :
    ∀ e ∈ epAddIdx m p i, ∀ k ∈ e.2, k < n := by
  unfold epAddIdx
  split
  · intro e he k hk
    rcases List.mem_map.mp he with ⟨e0, he0, rfl⟩
    by_cases hc : (e0.1 == p) = true
    · rw [if_pos hc] at hk
      dsimp only at hk
      rcases List.mem_append.mp hk with hk | hk
      · exact hm e0 he0 k hk
      · rcases List.mem_singleton.mp hk with rfl
        exact hi
    · rw [if_neg hc] at hk
      exact hm e0 he0 k hk
  · intro e he k hk
    rcases List.mem_append.mp he with he | he
    · exact hm e he k hk
    · rcases List.mem_singleton.mp he with rfl
      rcases List.mem_singleton.mp hk with rfl
      exact hi

theorem makeEndpointIdxAux_bound : ∀ (ls : List Linestring) (start : Nat)
    (m : List (Point × List Nat)) (n : Nat),
    (∀ e ∈ m, ∀ k ∈ e.2, k < n) → start + ls.length ≤ n →
    ∀ e ∈ makeEndpointIdxAux ls start m, ∀ k ∈ e.2, k < n := by
  intro ls
  induction ls with
  | nil => intro start m n hm _; exact hm
  | cons l rest ih =>
    intro start m n hm hle
    rw [makeEndpointIdxAux]
    apply ih
    · apply epAddIdx_bound
      · apply epAddIdx_bound
        · exact hm
        · simp at hle; omega
      · simp at hle; omega
    · simp at hle ⊢; omega

theorem mergeArcsLoop_err : ∀ (keys : List (Point × List Nat))
    (lines : List Linestring) (uf : UF) (e : GoErr),
    mergeArcsLoop keys lines uf = .error e → ∃ m, e = .contractViolation m := by
  intro keys
  induction keys with
  | nil =>
    intro lines uf e h
    exact absurd h (by simp [mergeArcsLoop])
  | cons key rest ih =>
    intro lines uf e h
    obtain ⟨p, indices⟩ := key
    rw [mergeArcsLoop] at h
    split at h
    · exact ih _ _ _ h
    · dsimp only at h
      split at h
      · exact ih _ _ _ h
      · cases hml : mergeLines (lines.getD (uf.Find (indices.getD 0 0)) lsDflt)
            (lines.getD (uf.Find (indices.getD 1 0)) lsDflt) with
        | error e0 =>
          rw [hml] at h
          cases h
          exact mergeLines_err _ _ _ hml
        | ok pr =>
          rw [hml] at h
          exact ih _ _ _ h

theorem mergeArcsLoop_inv (ids : List Int) (n : Nat) :
    ∀ (keys : List (Point × List Nat)) (lines : List Linestring) (uf : UF),
    (∀ e ∈ keys, ∀ k ∈ e.2, k < n) →
    lines.length = n → (∀ l ∈ lines, l.id ∈ ids) →
    uf.parent.length = n → (∀ p ∈ uf.parent, p < n) →
    ∀ lines1 uf1, mergeArcsLoop keys lines uf = .ok (lines1, uf1) →
      lines1.length = n ∧ (∀ l ∈ lines1, l.id ∈ ids) := by
  intro keys
  induction keys with
  | nil =>
    intro lines uf _ hlen hids _ _ lines1 uf1 h
    rw [mergeArcsLoop] at h
    cases h
    exact ⟨hlen, hids⟩
  | cons key rest ih =>
    intro lines uf hkeys hlen hids hplen hpb lines1 uf1 h
    obtain ⟨p, indices⟩ := key
    have hkrest : ∀ e ∈ rest, ∀ k ∈ e.2, k < n :=
      fun e he => hkeys e (List.mem_cons_of_mem _ he)
    rw [mergeArcsLoop] at h
    split at h
    · exact ih _ _ hkrest hlen hids hplen hpb _ _ h
    · next hlen2 =>
      dsimp only at h
      split at h
      · exact ih _ _ hkrest hlen hids hplen hpb _ _ h
      · next hij =>
        have hlen2' : indices.length = 2 := by omega
        have hidx0 : indices.getD 0 0 ∈ indices := by
          have h0 : 0 < indices.length := by omega
          rw [List.getD_eq_getElem?_getD, List.getElem?_eq_getElem h0]
          exact List.getElem_mem h0
        have hidx1 : indices.getD 1 0 ∈ indices := by
          have h1 : 1 < indices.length := by omega
          rw [List.getD_eq_getElem?_getD, List.getElem?_eq_getElem h1]
          exact List.getElem_mem h1
        have hi0 : indices.getD 0 0 < n :=
          hkeys (p, indices) (List.mem_cons_self _ _) _ hidx0
        have hi1 : indices.getD 1 0 < n :=
          hkeys (p, indices) (List.mem_cons_self _ _) _ hidx1
        have hfi : uf.Find (indices.getD 0 0) < n := UF_Find_lt uf n hplen hpb _ hi0
        have hfj : uf.Find (indices.getD 1 0) < n := UF_Find_lt uf n hplen hpb _ hi1
        cases hml : mergeLines (lines.getD (uf.Find (indices.getD 0 0)) lsDflt)
            (lines.getD (uf.Find (indices.getD 1 0)) lsDflt) with
        | error e0 =>
          rw [hml] at h
          exact absurd h (by simp)
        | ok pr =>
          rw [hml] at h
          dsimp only at h
          obtain ⟨m, l2r⟩ := pr
          have hUFm := UF_Merge_ok uf n hplen hpb _ _ hfi hfj
          have hgetmem : ∀ i : Nat, i < n → lines.getD i lsDflt ∈ lines := by
            intro i hi
            have hil : i < lines.length := by omega
            rw [List.getD_eq_getElem?_getD, List.getElem?_eq_getElem hil]
            exact List.getElem_mem hil
          rcases mergeLines_ids _ _ _ _ hml with ⟨hmid, hl2id⟩
          have hlines1len :
              (((lines.set (uf.Find (indices.getD 0 0)) m).set
                (uf.Find (indices.getD 1 0)) l2r).set
                ((uf.Merge (uf.Find (indices.getD 0 0))
                  (uf.Find (indices.getD 1 0))).Find
                    (uf.Find (indices.getD 0 0))) m).length = n := by
            simp [hlen]
          have hlines1ids : ∀ l ∈ ((lines.set (uf.Find (indices.getD 0 0)) m).set
                (uf.Find (indices.getD 1 0)) l2r).set
                ((uf.Merge (uf.Find (indices.getD 0 0))
                  (uf.Find (indices.getD 1 0))).Find
                    (uf.Find (indices.getD 0 0))) m, l.id ∈ ids := by
            intro l hl
            have hmids : m.id ∈ ids := by
              rw [hmid]
              exact hids _ (hgetmem _ hfi)
            have hl2ids : l2r.id ∈ ids := by
              rw [hl2id]
              exact hids _ (hgetmem _ hfj)
            rcases List.mem_or_eq_of_mem_set hl with hl | rfl
            · rcases List.mem_or_eq_of_mem_set hl with hl | rfl
              · rcases List.mem_or_eq_of_mem_set hl with hl | rfl
                · exact hids l hl
                · exact hmids
              · exact hl2ids
            · exact hmids
          exact ih _ _ hkrest hlines1len hlines1ids hUFm.1 hUFm.2 _ _ h

theorem mergeArcs_err (lines : List Linestring) (e : GoErr)
    (h : mergeArcs lines = .error e) : ∃ m, e = .contractViolation m := by
  unfold mergeArcs at h
  cases hml : mergeArcsLoop (makeEndpointIdxAux lines 0 []) lines
      (NewUnionFind lines.length) with
  | error e0 =>
    rw [hml] at h
    cases h
    exact mergeArcsLoop_err _ _ _ _ hml
  | ok pr =>
    rw [hml] at h
    exact absurd h (by simp)

theorem mergeArcs_ids (lines merged : List Linestring)
    (h : mergeArcs lines = .ok merged) :
    ∀ l ∈ merged, l.id ∈ lines.map Linestring.id := by
  unfold mergeArcs at h
  cases hml : mergeArcsLoop (makeEndpointIdxAux lines 0 []) lines
      (NewUnionFind lines.length) with
  | error e0 =>
    rw [hml] at h
    exact absurd h (by simp)
  | ok pr =>
    rw [hml] at h
    obtain ⟨lines1, uf1⟩ := pr
    have hinv := mergeArcsLoop_inv (lines.map Linestring.id) lines.length
      (makeEndpointIdxAux lines 0 []) lines (NewUnionFind lines.length)
      (makeEndpointIdxAux_bound lines 0 [] lines.length (by simp) (by omega))
      rfl (fun l hl => List.mem_map_of_mem _ hl)
      (by simp [NewUnionFind]) (by simp [NewUnionFind]) lines1 uf1 hml
    dsimp only at h
    cases h
    intro l hl
    rcases List.mem_map.mp hl with ⟨i, hi, rfl⟩
    have hin : i < lines.length := List.mem_range.mp (List.mem_filter.mp hi).1
    have : lines1.getD i lsDflt ∈ lines1 := by
      have hil : i < lines1.length := by omega
      rw [List.getD_eq_getElem?_getD, List.getElem?_eq_getElem hil]
      exact List.getElem_mem hil
    exact hinv.2 _ this

/-- C8: amended property of makeRings — the call either fails (with the
cannot-close-ring error naming the id of one of the input lines, or with a
contract-violation error standing for a Go panic), or returns rings whose
first point equals their last point.  The original claim's "every input
line is consumed into exactly one returned ring" is refuted by the
duplicate-id counterexample: the per-id seen set silently skips lines
repeating an already-processed id. -/
theorem makeRings_spec (oracle : Linestring → Bool) (lines : List Linestring) :
    match makeRings oracle lines with
    | .ok rings => ∀ r ∈ rings, r.StartP = r.EndP
    | .error (.cannotCloseRing i) => i ∈ lines.map Linestring.id
    | .error _ => True := by
  unfold makeRings
  cases hm : mergeArcs lines with
  | error e =>
    rcases mergeArcs_err lines e hm with ⟨msg, rfl⟩
    exact trivial
  | ok merged =>
    dsimp only
    cases hres : makeRingsLoop oracle (makeEndpoints merged)
        ((2 * merged.length + 2) * (merged.length + 2) + 2) merged [] [] with
    | ok rings =>
      exact (makeRingsLoop_spec oracle (makeEndpoints merged)
        ((2 * merged.length + 2) * (merged.length + 2) + 2) merged [] []
        (by simp)).1 rings hres
    | error e =>
      cases e with
      | cannotCloseRing i =>
        have hmem : i ∈ merged.map Linestring.id :=
          (makeRingsLoop_spec oracle (makeEndpoints merged)
            ((2 * merged.length + 2) * (merged.length + 2) + 2) merged [] []
            (by simp)).2 i hres
        show i ∈ lines.map Linestring.id
        rcases List.mem_map.mp hmem with ⟨l, hl, rfl⟩
        exact mergeArcs_ids lines merged hm l hl
      | _ => exact trivial

end Osm
